import Mathlib

/-!
Verification development for the inshorts-news-data-syncer repository.

The development shallowly embeds the Go source:
* `utils/time.go` — `NormalizeToESDate`, built on Go's `time.Parse` with the
  fixed layout `2006-01-02T15:04:05` and `Format` with layout
  `2006-01-02T15:04:05.000Z`;
* the bulk ingestion pipeline — `bulkIndex`, `flushBulk`,
  `createMappingsSettings`, and `main`'s error-propagation policy.

Machine integers: all numeric parsing is on small decimal values (years,
months, ...) which fit any integer width, so `Nat` is used directly.
Effects (Elasticsearch calls, the filesystem) are modelled by explicit
environments passed as function arguments.
-/

/-! ### Go `time.Parse` specialized to layout `2006-01-02T15:04:05`

Go's parser walks the layout chunk by chunk.  For this layout the chunks are:
`stdLongYear` ("2006", exactly four digits), a literal `-`, `stdZeroMonth`
("01", exactly two digits via `getnum fixed=true`), `-`, `stdZeroDay` ("02"),
a literal `T`, `stdHour` ("15", one *or* two digits via `getnum fixed=false`),
`:`, `stdZeroMinute` ("04"), `:`, `stdZeroSecond` ("05").  After the layout is
consumed the remaining input must be empty ("extra text"), and the components
are range-checked (month 1..12, day 1..daysIn(month, year), hour < 24,
minute < 60, second < 60). -/

/-- Decimal digit test, Go's `isDigit`. -/
def isDigitChar (c : Char) : Bool :=
  decide (48 ≤ c.toNat) && decide (c.toNat ≤ 57)

/-- Numeric value of a decimal digit character. -/
def digitVal (c : Char) : Nat := c.toNat - 48

/-- Go `getnum(s, true)`: exactly two decimal digits. -/
def getnum2 : List Char → Except String (Nat × List Char)
  | c1 :: c2 :: rest =>
      if isDigitChar c1 && isDigitChar c2 then
        .ok (10 * digitVal c1 + digitVal c2, rest)
      else .error "bad value for field"
  | _ => .error "bad value for field"

/-- Go `getnum(s, false)`: one or two decimal digits, greedily two. -/
def getnumFlex : List Char → Except String (Nat × List Char)
  | c1 :: c2 :: rest =>
      if isDigitChar c1 then
        if isDigitChar c2 then .ok (10 * digitVal c1 + digitVal c2, rest)
        else .ok (digitVal c1, c2 :: rest)
      else .error "bad value for field"
  | [c1] =>
      if isDigitChar c1 then .ok (digitVal c1, [])
      else .error "bad value for field"
  | [] => .error "bad value for field"

/-- Go `stdLongYear`: exactly four decimal digits. -/
def getYear4 : List Char → Except String (Nat × List Char)
  | c1 :: c2 :: c3 :: c4 :: rest =>
      if isDigitChar c1 && isDigitChar c2 && isDigitChar c3 && isDigitChar c4 then
        .ok (1000 * digitVal c1 + 100 * digitVal c2 + 10 * digitVal c3 + digitVal c4, rest)
      else .error "bad value for field"
  | _ => .error "bad value for field"

/-- Consume one exact literal layout character. -/
def getLit (c : Char) : List Char → Except String (List Char)
  | d :: rest => if d = c then .ok rest else .error "bad value for field"
  | [] => .error "bad value for field"

/-- Go `isLeap`. -/
def isLeap (year : Nat) : Bool :=
  year % 4 = 0 && (year % 100 ≠ 0 || year % 400 = 0)

/-- Go `daysIn(m, year)` for m in 1..12. -/
def daysIn (month year : Nat) : Nat :=
  if month = 2 then (if isLeap year then 29 else 28)
  else if month = 4 || month = 6 || month = 9 || month = 11 then 30
  else 31

/-- Parsed wall-clock components; Go's `time.Date` result restricted to what
this layout can produce (no zone, zero nanoseconds, hence UTC). -/
structure GoDateTime where
  year : Nat
  month : Nat
  day : Nat
  hour : Nat
  minute : Nat
  second : Nat
deriving DecidableEq, Repr

/-- Go `time.Parse("2006-01-02T15:04:05", input)` on the input's characters:
the chunk walk described above followed by the range checks. -/
def goTimeParseChars (l : List Char) : Except String GoDateTime := do
  let (year, l) ← getYear4 l
  let l ← getLit '-' l
  let (month, l) ← getnum2 l
  let l ← getLit '-' l
  let (day, l) ← getnum2 l
  let l ← getLit 'T' l
  let (hour, l) ← getnumFlex l
  let l ← getLit ':' l
  let (minute, l) ← getnum2 l
  let l ← getLit ':' l
  let (second, l) ← getnum2 l
  if !l.isEmpty then .error "extra text" else
  if month < 1 || 12 < month then .error "month out of range" else
  if day < 1 || daysIn month year < day then .error "day out of range" else
  if 24 ≤ hour then .error "hour out of range" else
  if 60 ≤ minute then .error "minute out of range" else
  if 60 ≤ second then .error "second out of range" else
  .ok ⟨year, month, day, hour, minute, second⟩

/-- Two-digit zero-padded decimal rendering (`%02d` for values < 100). -/
def pad2 (n : Nat) : List Char :=
  [Char.ofNat (n / 10 % 10 + 48), Char.ofNat (n % 10 + 48)]

/-- Four-digit zero-padded decimal rendering (`%04d` for values < 10000). -/
def pad4 (n : Nat) : List Char :=
  [Char.ofNat (n / 1000 % 10 + 48), Char.ofNat (n / 100 % 10 + 48),
   Char.ofNat (n / 10 % 10 + 48), Char.ofNat (n % 10 + 48)]

/-- Go `t.UTC().Format("2006-01-02T15:04:05.000Z")`: the parsed time already
is UTC (the layout carries no zone), nanoseconds are zero so `.000` is
emitted literally, and the trailing `Z` is a literal layout character. -/
def formatESChars (t : GoDateTime) : List Char :=
  pad4 t.year ++ '-' :: pad2 t.month ++ '-' :: pad2 t.day ++
    'T' :: pad2 t.hour ++ ':' :: pad2 t.minute ++ ':' :: pad2 t.second ++
    ['.', '0', '0', '0', 'Z']

/-- Function `utils.NormalizeToESDate` (utils/time.go lines 13–21): parse with the
input layout; on error return `("", err)`; otherwise format in the output
layout.  The Go pair `(string, error)` is modelled as
`String × Option String`. -/
def NormalizeToESDate (input : String) : String × Option String :=
  match goTimeParseChars input.data with
  | .error e => ("", some e)
  | .ok t => (⟨formatESChars t⟩, none)

example : NormalizeToESDate "2024-01-15T10:30:00" = ("2024-01-15T10:30:00.000Z", none) := by
  decide

example : (NormalizeToESDate "not-a-date").2.isSome = true := by decide

example : NormalizeToESDate "2024-01-15T9:30:00" = ("2024-01-15T09:30:00.000Z", none) := by
  decide

example : (NormalizeToESDate "2024-02-30T10:30:00").2.isSome = true := by decide
example : (NormalizeToESDate "2024-02-29T10:30:00").2 = none := by decide
example : (NormalizeToESDate "2023-02-29T10:30:00").2.isSome = true := by decide

/-! ### The spec's textual timestamp patterns

Modelled from the spec: the spec describes the input pattern by the notation
`yyyy-MM-dd'T'HH:mm:ss` (four-digit year, two-digit month/day/hour/minute/
second, literal separators, valid calendar values) and the output pattern by
`yyyy-MM-dd'T'HH:mm:ss.SSS'Z'`.  These predicates transcribe that notation so
that the behavior of the source's `NormalizeToESDate` can be compared with
the spec's description. -/

/-- Value of two digit characters. -/
def val2 (a b : Char) : Nat := 10 * digitVal a + digitVal b

/-- Value of four digit characters. -/
def val4 (a b c d : Char) : Nat :=
  1000 * digitVal a + 100 * digitVal b + 10 * digitVal c + digitVal d

/-- Calendar validity of the components, matching Go's range checks. -/
def validDateTimeVals (year month day hour minute second : Nat) : Bool :=
  decide (1 ≤ month) && (decide (month ≤ 12) &&
  (decide (1 ≤ day) && (decide (day ≤ daysIn month year) &&
  (decide (hour ≤ 23) && (decide (minute ≤ 59) && decide (second ≤ 59))))))

/-- The spec's input pattern `yyyy-MM-dd'T'HH:mm:ss` on a character list:
exactly 19 characters, digits at the digit positions, the literal
separators, and in-range (valid calendar) component values. -/
def matchesStrictChars : List Char → Bool
  | [y1, y2, y3, y4, '-', m1, m2, '-', d1, d2, 'T',
     h1, h2, ':', n1, n2, ':', s1, s2] =>
      isDigitChar y1 && (isDigitChar y2 && (isDigitChar y3 && (isDigitChar y4 &&
      (isDigitChar m1 && (isDigitChar m2 && (isDigitChar d1 && (isDigitChar d2 &&
      (isDigitChar h1 && (isDigitChar h2 && (isDigitChar n1 && (isDigitChar n2 &&
      (isDigitChar s1 && (isDigitChar s2 &&
      validDateTimeVals (val4 y1 y2 y3 y4) (val2 m1 m2) (val2 d1 d2)
        (val2 h1 h2) (val2 n1 n2) (val2 s1 s2))))))))))))))
  | _ => false

/-- The one-digit-hour variant that Go's `getnum(s, false)` additionally
accepts for the hour field of the layout `15`. -/
def matchesShortChars : List Char → Bool
  | [y1, y2, y3, y4, '-', m1, m2, '-', d1, d2, 'T',
     h1, ':', n1, n2, ':', s1, s2] =>
      isDigitChar y1 && (isDigitChar y2 && (isDigitChar y3 && (isDigitChar y4 &&
      (isDigitChar m1 && (isDigitChar m2 && (isDigitChar d1 && (isDigitChar d2 &&
      (isDigitChar h1 && (isDigitChar n1 && (isDigitChar n2 &&
      (isDigitChar s1 && (isDigitChar s2 &&
      validDateTimeVals (val4 y1 y2 y3 y4) (val2 m1 m2) (val2 d1 d2)
        (digitVal h1) (val2 n1 n2) (val2 s1 s2)))))))))))))
  | _ => false

/-- The set of inputs Go's `time.Parse` accepts for this layout: the spec's
pattern, or its one-digit-hour variant. -/
def matchesFlexChars (l : List Char) : Bool :=
  matchesStrictChars l || matchesShortChars l

/-- The spec's input pattern on a string. -/
def matchesInputPattern (s : String) : Bool := matchesStrictChars s.data

/-- The spec's output pattern `yyyy-MM-dd'T'HH:mm:ss.SSS'Z'` on a string:
exactly 24 characters, digits at the digit positions (including the three
fraction digits), the literal separators, and the trailing `Z`. -/
def matchesOutputPattern (s : String) : Bool :=
  match s.data with
  | [y1, y2, y3, y4, '-', m1, m2, '-', d1, d2, 'T',
     h1, h2, ':', n1, n2, ':', s1, s2, '.', f1, f2, f3, 'Z'] =>
      isDigitChar y1 && (isDigitChar y2 && (isDigitChar y3 && (isDigitChar y4 &&
      (isDigitChar m1 && (isDigitChar m2 && (isDigitChar d1 && (isDigitChar d2 &&
      (isDigitChar h1 && (isDigitChar h2 && (isDigitChar n1 && (isDigitChar n2 &&
      (isDigitChar s1 && (isDigitChar s2 &&
      (isDigitChar f1 && (isDigitChar f2 && isDigitChar f3)))))))))))))))
  | _ => false

example : matchesInputPattern "2024-01-15T10:30:00" = true := by decide
example : matchesInputPattern "2024-01-15T9:30:00" = false := by decide
example : matchesFlexChars ("2024-01-15T9:30:00").data = true := by decide
example : matchesInputPattern "not-a-date" = false := by decide
example : matchesOutputPattern "2024-01-15T10:30:00.000Z" = true := by decide

/-! ### Round-trip lemmas between digit characters and padded rendering -/

theorem isDigitChar_bounds {c : Char} (h : isDigitChar c = true) :
    48 ≤ c.toNat ∧ c.toNat ≤ 57 := by
  simp only [isDigitChar, Bool.and_eq_true, decide_eq_true_eq] at h
  exact h

theorem pad2_val2 {a b : Char} (ha : isDigitChar a = true) (hb : isDigitChar b = true) :
    pad2 (val2 a b) = [a, b] := by
  obtain ⟨ha1, ha2⟩ := isDigitChar_bounds ha
  obtain ⟨hb1, hb2⟩ := isDigitChar_bounds hb
  have e1 : val2 a b / 10 % 10 + 48 = a.toNat := by
    simp only [val2, digitVal]; omega
  have e2 : val2 a b % 10 + 48 = b.toNat := by
    simp only [val2, digitVal]; omega
  simp [pad2, e1, e2]

theorem pad4_val4 {a b c d : Char} (ha : isDigitChar a = true)
    (hb : isDigitChar b = true) (hc : isDigitChar c = true)
    (hd : isDigitChar d = true) :
    pad4 (val4 a b c d) = [a, b, c, d] := by
  obtain ⟨ha1, ha2⟩ := isDigitChar_bounds ha
  obtain ⟨hb1, hb2⟩ := isDigitChar_bounds hb
  obtain ⟨hc1, hc2⟩ := isDigitChar_bounds hc
  obtain ⟨hd1, hd2⟩ := isDigitChar_bounds hd
  have e1 : val4 a b c d / 1000 % 10 + 48 = a.toNat := by
    simp only [val4, digitVal]; omega
  have e2 : val4 a b c d / 100 % 10 + 48 = b.toNat := by
    simp only [val4, digitVal]; omega
  have e3 : val4 a b c d / 10 % 10 + 48 = c.toNat := by
    simp only [val4, digitVal]; omega
  have e4 : val4 a b c d % 10 + 48 = d.toNat := by
    simp only [val4, digitVal]; omega
  simp [pad4, e1, e2, e3, e4]

/-! ### Soundness: inputs matching the spec's pattern parse and re-render -/

theorem matchesStrictChars_inv {l : List Char} (h : matchesStrictChars l = true) :
    ∃ y1 y2 y3 y4 m1 m2 d1 d2 hh1 hh2 n1 n2 s1 s2 : Char,
      l = [y1, y2, y3, y4, '-', m1, m2, '-', d1, d2, 'T',
           hh1, hh2, ':', n1, n2, ':', s1, s2] ∧
      isDigitChar y1 = true ∧ isDigitChar y2 = true ∧
      isDigitChar y3 = true ∧ isDigitChar y4 = true ∧
      isDigitChar m1 = true ∧ isDigitChar m2 = true ∧
      isDigitChar d1 = true ∧ isDigitChar d2 = true ∧
      isDigitChar hh1 = true ∧ isDigitChar hh2 = true ∧
      isDigitChar n1 = true ∧ isDigitChar n2 = true ∧
      isDigitChar s1 = true ∧ isDigitChar s2 = true ∧
      validDateTimeVals (val4 y1 y2 y3 y4) (val2 m1 m2) (val2 d1 d2)
        (val2 hh1 hh2) (val2 n1 n2) (val2 s1 s2) = true := by
  unfold matchesStrictChars at h
  split at h
  · next y1 y2 y3 y4 m1 m2 d1 d2 hh1 hh2 n1 n2 s1 s2 =>
    simp only [Bool.and_eq_true] at h
    obtain ⟨h1, h2, h3, h4, h5, h6, h7, h8, h9, h10, h11, h12, h13, h14, h15⟩ := h
    exact ⟨y1, y2, y3, y4, m1, m2, d1, d2, hh1, hh2, n1, n2, s1, s2, rfl,
           h1, h2, h3, h4, h5, h6, h7, h8, h9, h10, h11, h12, h13, h14, h15⟩
  · cases h

theorem goTimeParse_strict {y1 y2 y3 y4 m1 m2 d1 d2 hh1 hh2 n1 n2 s1 s2 : Char}
    (dy1 : isDigitChar y1 = true) (dy2 : isDigitChar y2 = true)
    (dy3 : isDigitChar y3 = true) (dy4 : isDigitChar y4 = true)
    (dm1 : isDigitChar m1 = true) (dm2 : isDigitChar m2 = true)
    (dd1 : isDigitChar d1 = true) (dd2 : isDigitChar d2 = true)
    (dh1 : isDigitChar hh1 = true) (dh2 : isDigitChar hh2 = true)
    (dn1 : isDigitChar n1 = true) (dn2 : isDigitChar n2 = true)
    (ds1 : isDigitChar s1 = true) (ds2 : isDigitChar s2 = true)
    (hv : validDateTimeVals (val4 y1 y2 y3 y4) (val2 m1 m2) (val2 d1 d2)
           (val2 hh1 hh2) (val2 n1 n2) (val2 s1 s2) = true) :
    goTimeParseChars [y1, y2, y3, y4, '-', m1, m2, '-', d1, d2, 'T',
      hh1, hh2, ':', n1, n2, ':', s1, s2] =
      .ok ⟨val4 y1 y2 y3 y4, val2 m1 m2, val2 d1 d2,
           val2 hh1 hh2, val2 n1 n2, val2 s1 s2⟩ := by
  simp only [validDateTimeVals, val2, val4, Bool.and_eq_true, decide_eq_true_eq] at hv
  simp [goTimeParseChars, getYear4, getLit, getnum2, getnumFlex, Bind.bind, Except.bind,
        dy1, dy2, dy3, dy4, dm1, dm2, dd1, dd2, dh1, dh2, dn1, dn2, ds1, ds2, val4, val2]
  rw [if_neg (by omega), if_neg (by omega), if_neg (by omega), if_neg (by omega),
      if_neg (by omega)]

theorem formatESChars_strict {y1 y2 y3 y4 m1 m2 d1 d2 hh1 hh2 n1 n2 s1 s2 : Char}
    (dy1 : isDigitChar y1 = true) (dy2 : isDigitChar y2 = true)
    (dy3 : isDigitChar y3 = true) (dy4 : isDigitChar y4 = true)
    (dm1 : isDigitChar m1 = true) (dm2 : isDigitChar m2 = true)
    (dd1 : isDigitChar d1 = true) (dd2 : isDigitChar d2 = true)
    (dh1 : isDigitChar hh1 = true) (dh2 : isDigitChar hh2 = true)
    (dn1 : isDigitChar n1 = true) (dn2 : isDigitChar n2 = true)
    (ds1 : isDigitChar s1 = true) (ds2 : isDigitChar s2 = true) :
    formatESChars ⟨val4 y1 y2 y3 y4, val2 m1 m2, val2 d1 d2,
        val2 hh1 hh2, val2 n1 n2, val2 s1 s2⟩ =
      [y1, y2, y3, y4, '-', m1, m2, '-', d1, d2, 'T',
       hh1, hh2, ':', n1, n2, ':', s1, s2, '.', '0', '0', '0', 'Z'] := by
  simp [formatESChars, pad4_val4 dy1 dy2 dy3 dy4, pad2_val2 dm1 dm2,
        pad2_val2 dd1 dd2, pad2_val2 dh1 dh2, pad2_val2 dn1 dn2, pad2_val2 ds1 ds2]

/-- Inputs matching the spec's input pattern normalize to the same instant
with `.000Z` appended, and the result matches the spec's output pattern. -/
theorem normalize_strict_ok (s : String) (h : matchesInputPattern s = true) :
    NormalizeToESDate s = (s ++ ".000Z", none) ∧
      matchesOutputPattern (s ++ ".000Z") = true := by
  unfold matchesInputPattern at h
  obtain ⟨y1, y2, y3, y4, m1, m2, d1, d2, hh1, hh2, n1, n2, s1, s2, hl,
    dy1, dy2, dy3, dy4, dm1, dm2, dd1, dd2, dh1, dh2, dn1, dn2, ds1, ds2, hv⟩ :=
    matchesStrictChars_inv h
  have hdata : (s ++ ".000Z").data =
      [y1, y2, y3, y4, '-', m1, m2, '-', d1, d2, 'T',
       hh1, hh2, ':', n1, n2, ':', s1, s2, '.', '0', '0', '0', 'Z'] := by
    rw [String.data_append, hl]; rfl
  constructor
  · show NormalizeToESDate s = _
    unfold NormalizeToESDate
    rw [hl, goTimeParse_strict dy1 dy2 dy3 dy4 dm1 dm2 dd1 dd2 dh1 dh2 dn1 dn2 ds1 ds2 hv]
    refine Prod.ext ?_ rfl
    show (⟨formatESChars _⟩ : String) = s ++ ".000Z"
    apply String.ext
    rw [formatESChars_strict dy1 dy2 dy3 dy4 dm1 dm2 dd1 dd2 dh1 dh2 dn1 dn2 ds1 ds2]
    exact hdata.symm
  · unfold matchesOutputPattern
    rw [hdata]
    simp [dy1, dy2, dy3, dy4, dm1, dm2, dd1, dd2, dh1, dh2, dn1, dn2, ds1, ds2,
      show isDigitChar '0' = true by decide]

/-! ### Completeness: whatever parses matches the (flexible-hour) pattern -/

theorem getYear4_ok {l r : List Char} {n : Nat} (h : getYear4 l = .ok (n, r)) :
    ∃ c1 c2 c3 c4, l = c1 :: c2 :: c3 :: c4 :: r ∧
      isDigitChar c1 = true ∧ isDigitChar c2 = true ∧
      isDigitChar c3 = true ∧ isDigitChar c4 = true ∧ n = val4 c1 c2 c3 c4 := by
  unfold getYear4 at h
  split at h
  · next c1 c2 c3 c4 rest =>
    split at h
    · next hd =>
      simp only [Bool.and_eq_true] at hd
      obtain ⟨⟨⟨h1, h2⟩, h3⟩, h4⟩ := hd
      simp only [Except.ok.injEq, Prod.mk.injEq] at h
      obtain ⟨hn, hr⟩ := h
      subst hr
      exact ⟨c1, c2, c3, c4, rfl, h1, h2, h3, h4, hn.symm⟩
    · cases h
  · cases h

theorem getnum2_ok {l r : List Char} {n : Nat} (h : getnum2 l = .ok (n, r)) :
    ∃ c1 c2, l = c1 :: c2 :: r ∧
      isDigitChar c1 = true ∧ isDigitChar c2 = true ∧ n = val2 c1 c2 := by
  unfold getnum2 at h
  split at h
  · next c1 c2 rest =>
    split at h
    · next hd =>
      simp only [Bool.and_eq_true] at hd
      obtain ⟨h1, h2⟩ := hd
      simp only [Except.ok.injEq, Prod.mk.injEq] at h
      obtain ⟨hn, hr⟩ := h
      subst hr
      exact ⟨c1, c2, rfl, h1, h2, hn.symm⟩
    · cases h
  · cases h

theorem getLit_ok {c : Char} {l r : List Char} (h : getLit c l = .ok r) :
    l = c :: r := by
  unfold getLit at h
  split at h
  · next d rest =>
    split at h
    · next hd =>
      simp only [Except.ok.injEq] at h
      subst h; rw [hd]
    · cases h
  · cases h

theorem getnumFlex_ok {l r : List Char} {n : Nat} (h : getnumFlex l = .ok (n, r)) :
    (∃ c1 c2, l = c1 :: c2 :: r ∧ isDigitChar c1 = true ∧ isDigitChar c2 = true ∧
       n = val2 c1 c2) ∨
    (∃ c1, l = c1 :: r ∧ isDigitChar c1 = true ∧ isDigitChar (r.headD ' ') = false ∧
       n = digitVal c1) := by
  unfold getnumFlex at h
  split at h
  · next c1 c2 rest =>
    split at h
    · next h1 =>
      split at h
      · next h2 =>
        simp only [Except.ok.injEq, Prod.mk.injEq] at h
        obtain ⟨hn, hr⟩ := h
        subst hr
        exact .inl ⟨c1, c2, rfl, h1, h2, hn.symm⟩
      · next h2 =>
        simp only [Except.ok.injEq, Prod.mk.injEq] at h
        obtain ⟨hn, hr⟩ := h
        subst hr
        exact .inr ⟨c1, rfl, h1, by simpa using Bool.of_not_eq_true h2, hn.symm⟩
    · cases h
  · next c1 =>
    split at h
    · next h1 =>
      simp only [Except.ok.injEq, Prod.mk.injEq] at h
      obtain ⟨hn, hr⟩ := h
      subst hr
      exact .inr ⟨c1, rfl, h1, by simp [List.headD]; decide, hn.symm⟩
    · cases h
  · cases h

theorem goTimeParse_ok_flex {l : List Char} {dt : GoDateTime}
    (h : goTimeParseChars l = .ok dt) : matchesFlexChars l = true := by
  unfold goTimeParseChars at h
  cases hy : getYear4 l with
  | error e => rw [hy] at h; simp [Bind.bind, Except.bind] at h
  | ok p =>
  obtain ⟨year, l1⟩ := p
  rw [hy] at h
  simp only [Bind.bind, Except.bind] at h
  cases hA : getLit '-' l1 with
  | error e => rw [hA] at h; simp at h
  | ok l2 =>
  rw [hA] at h
  simp only [Except.bind] at h
  cases hB : getnum2 l2 with
  | error e => rw [hB] at h; simp at h
  | ok p =>
  obtain ⟨month, l3⟩ := p
  rw [hB] at h
  simp only [Except.bind] at h
  cases hC : getLit '-' l3 with
  | error e => rw [hC] at h; simp at h
  | ok l4 =>
  rw [hC] at h
  simp only [Except.bind] at h
  cases hD : getnum2 l4 with
  | error e => rw [hD] at h; simp at h
  | ok p =>
  obtain ⟨day, l5⟩ := p
  rw [hD] at h
  simp only [Except.bind] at h
  cases hE : getLit 'T' l5 with
  | error e => rw [hE] at h; simp at h
  | ok l6 =>
  rw [hE] at h
  simp only [Except.bind] at h
  cases hF : getnumFlex l6 with
  | error e => rw [hF] at h; simp at h
  | ok p =>
  obtain ⟨hour, l7⟩ := p
  rw [hF] at h
  simp only [Except.bind] at h
  cases hG : getLit ':' l7 with
  | error e => rw [hG] at h; simp at h
  | ok l8 =>
  rw [hG] at h
  simp only [Except.bind] at h
  cases hH : getnum2 l8 with
  | error e => rw [hH] at h; simp at h
  | ok p =>
  obtain ⟨minute, l9⟩ := p
  rw [hH] at h
  simp only [Except.bind] at h
  cases hI : getLit ':' l9 with
  | error e => rw [hI] at h; simp at h
  | ok l10 =>
  rw [hI] at h
  simp only [Except.bind] at h
  cases hJ : getnum2 l10 with
  | error e => rw [hJ] at h; simp at h
  | ok p =>
  obtain ⟨second, l11⟩ := p
  rw [hJ] at h
  simp only [Except.bind] at h
  split at h
  · cases h
  next hEmp =>
  split at h
  · cases h
  next hMon =>
  split at h
  · cases h
  next hDay =>
  split at h
  · cases h
  next hHour =>
  split at h
  · cases h
  next hMin =>
  split at h
  · cases h
  next hSec =>
  have hl11 : l11 = [] := by
    simpa [Bool.not_eq_true, List.isEmpty_iff] using hEmp
  simp only [decide_eq_true_eq, Bool.or_eq_true, not_or] at hMon hDay
  obtain ⟨y1, y2, y3, y4, hly, dy1, dy2, dy3, dy4, hyear⟩ := getYear4_ok hy
  have hlA := getLit_ok hA
  obtain ⟨m1, m2, hlB, dm1, dm2, hmon⟩ := getnum2_ok hB
  have hlC := getLit_ok hC
  obtain ⟨d1, d2, hlD, dd1, dd2, hday⟩ := getnum2_ok hD
  have hlE := getLit_ok hE
  have hlG := getLit_ok hG
  obtain ⟨n1, n2, hlH, dn1, dn2, hmin⟩ := getnum2_ok hH
  have hlI := getLit_ok hI
  obtain ⟨s1, s2, hlJ, ds1, ds2, hsec⟩ := getnum2_ok hJ
  subst hl11 hlJ hlI hlH hlG hlE hlD hlC hlB hlA
  subst hyear hmon hday hmin hsec
  rcases getnumFlex_ok hF with ⟨a, b, hlF, da, db, hhour⟩ | ⟨a, hlF, da, _, hhour⟩
  · subst hlF hhour hly
    simp only [matchesFlexChars, matchesStrictChars, Bool.or_eq_true]
    refine Or.inl ?_
    simp only [da, db, dy1, dy2, dy3, dy4, dm1, dm2, dd1, dd2, dn1, dn2, ds1, ds2,
      Bool.true_and, validDateTimeVals, Bool.and_eq_true, decide_eq_true_eq]
    refine ⟨?_, ?_, ?_, ?_, ?_, ?_, ?_⟩ <;> omega
  · subst hlF hhour hly
    simp only [matchesFlexChars, matchesShortChars, Bool.or_eq_true]
    refine Or.inr ?_
    simp only [da, dy1, dy2, dy3, dy4, dm1, dm2, dd1, dd2, dn1, dn2, ds1, ds2,
      Bool.true_and, validDateTimeVals, Bool.and_eq_true, decide_eq_true_eq]
    refine ⟨?_, ?_, ?_, ?_, ?_, ?_, ?_⟩ <;> omega

/-! ### The bulk ingestion pipeline (utils/time.go lines 263–347)

`Article` mirrors the Go struct.  The Elasticsearch client is modelled as a
`StoreModel`: a function from the 0-based submission ordinal and submitted
batch to the transport outcome — `.error` for a failed `es.Bulk` call (or an
undecodable response body), `.ok` for a decoded `BulkResponse`.  The byte
buffer is modelled as the list of per-record entries appended since the last
successful flush; it is empty exactly when Go's `buf.Len() == 0`, because
every appended record starts with a non-empty action-metadata line. -/

/-- Go constant `indexName` (line 44). -/
def indexName : String := "inshorts-news"

/-- Go constant `bulkSize` (line 45). -/
def bulkSize : Nat := 500

/-- A Go `float64` value as this pipeline observes it.  The pipeline does
no arithmetic on its numeric fields; the only operation that inspects them
is `json.Marshal`, whose float encoder rejects NaN and ±Inf with an
`UnsupportedValueError` and accepts every finite value.  The embedding
therefore carries the finite/NaN/+Inf/−Inf classification explicitly —
every finite float64 is a rational number, carried exactly — so that the
marshal check below is decidable and kernel-computable. -/
inductive GoFloat where
  | finite (q : ℚ)
  | nan
  | inf
  | negInf
deriving DecidableEq

/-- Whether Go's JSON float encoder accepts the value
(`math.IsNaN`/`math.IsInf` both false). -/
def GoFloat.isFinite : GoFloat → Bool
  | .finite _ => true
  | _ => false

/-- The `Article` struct (lines 49–61); the three `float64` fields are
embedded as `GoFloat`. -/
structure Article where
  id : String
  title : String
  description : String
  url : String
  publicationDate : String
  sourceName : String
  category : List String
  relevanceScore : GoFloat
  latitude : GoFloat
  longitude : GoFloat
  llmSummary : String

/-- The document body built per record (lines 278–293): all fields plus the
derived geo-point.  `publication_date` holds the normalized date. -/
structure DocBody where
  id : String
  title : String
  description : String
  url : String
  publication_date : String
  source_name : String
  category : List String
  relevance_score : GoFloat
  latitude : GoFloat
  longitude : GoFloat
  location_lat : GoFloat
  location_lon : GoFloat

/-- The action-metadata line (lines 272–275): plain `fmt.Sprintf`
interpolation of the index name and article id, newline-terminated, with no
JSON escaping. -/
def mkMeta (index id : String) : String :=
  "\x7b \"index\": \x7b \"_index\": \"" ++ index ++ "\", \"_id\": \"" ++ id ++
    "\" \x7d \x7d\n"

/-- One record's contribution to the bulk buffer: the metadata line and the
document whose `json.Marshal` output was appended (marshalling of the
document is fallible — see `marshalDoc` — and an entry exists only for a
record whose marshal succeeded). -/
structure BulkEntry where
  meta : String
  doc : DocBody

/-- Term `docOf a fd` is the document map for article `a` with normalized date
`fd` (lines 278–293). -/
def docOf (a : Article) (fd : String) : DocBody :=
  { id := a.id, title := a.title, description := a.description, url := a.url
    publication_date := fd, source_name := a.sourceName, category := a.category
    relevance_score := a.relevanceScore, latitude := a.latitude
    longitude := a.longitude, location_lat := a.latitude
    location_lon := a.longitude }

/-- The buffer entry appended for an article whose date normalized. -/
def entryOf (a : Article) : BulkEntry :=
  ⟨mkMeta indexName a.id, docOf a (NormalizeToESDate a.publicationDate).1⟩

/-- Whether every `float64` value in the document map is finite: these are
the only values in the map Go's JSON encoder can reject (the rest are
strings and string slices, which always marshal). -/
def docMarshalOk (d : DocBody) : Bool :=
  d.relevance_score.isFinite && d.latitude.isFinite && d.longitude.isFinite &&
  d.location_lat.isFinite && d.location_lon.isFinite

/-- Go `body, err := json.Marshal(doc)` (line 295): the error side of
marshalling the document map — an `UnsupportedValueError` when some float
is NaN/±Inf, `nil` otherwise.  The serialized bytes are not inspected by
any later control flow, so only the error side is modelled (the successful
bytes are represented by the `DocBody` kept in the buffer entry). -/
def marshalDoc (d : DocBody) : Option String :=
  if docMarshalOk d then none else some "json: unsupported value"

/-- All three of an article's numeric fields are finite — exactly the
condition under which its document marshals, whatever the normalized
date. -/
def articleFloatsFinite (a : Article) : Bool :=
  a.relevanceScore.isFinite && a.latitude.isFinite && a.longitude.isFinite

theorem docMarshalOk_docOf (a : Article) (fd : String) :
    docMarshalOk (docOf a fd) = articleFloatsFinite a := by
  unfold docMarshalOk docOf articleFloatsFinite
  cases a.relevanceScore.isFinite <;> cases a.latitude.isFinite <;>
    cases a.longitude.isFinite <;> rfl

theorem marshalDoc_docOf_none {a : Article} (h : articleFloatsFinite a = true)
    (fd : String) : marshalDoc (docOf a fd) = none := by
  unfold marshalDoc
  rw [docMarshalOk_docOf, h, if_pos rfl]

/-- One action's result inside a bulk response item (lines 325–328):
`status` and an optional structured error (`nil` map ↔ `none`); the error
payload itself is opaque to the pipeline and modelled as a string. -/
structure BulkAction where
  status : Int
  error : Option String

/-- One item of `bulkResp.Items`: Go's `map[string]…` as an association
list, iterated in list order (a bulk item carries a single action key, so
Go's randomized map order is immaterial). -/
abbrev BulkItem : Type := List (String × BulkAction)

/-- The decoded bulk response (lines 323–329). -/
structure BulkResponse where
  errors : Bool
  items : List BulkItem

/-- The store: submission ordinal and batch to transport outcome. -/
def StoreModel : Type := Nat → List BulkEntry → Except String BulkResponse

/-- A store that always answers the same decoded response. -/
def constStore (resp : BulkResponse) : StoreModel := fun _ _ => .ok resp

/-- A store whose every response reports no failure at all. -/
def okStore : StoreModel := fun _ _ => .ok ⟨false, []⟩

/-- The inner loop of lines 336–342 over one item's actions: the first
action with a non-nil error is returned. -/
def scanActions : BulkItem → Option String
  | ([] : List (String × BulkAction)) => none
  | p :: rest => match p.2.error with
      | some d => some d
      | none => scanActions rest

/-- The outer loop of lines 336–342 over the items. -/
def scanItems : List BulkItem → Option String
  | [] => none
  | item :: rest => match scanActions item with
      | some d => some d
      | none => scanItems rest

/-- Lines 335–343: items are scanned only when the top-level `errors` flag
is set. -/
def respFirstError (resp : BulkResponse) : Option String :=
  if resp.errors then scanItems resp.items else none

/-- The pipeline's mutable state: the current buffer and the trace of
batches submitted to the store so far (each `es.Bulk` call, in order). -/
structure BulkState where
  buf : List BulkEntry
  flushes : List (List BulkEntry)

/-- The error kinds `bulkIndex` can return — the spec's §7 names plus the
`json.Marshal` failure of line 296; each carries the underlying detail
string. -/
inductive PipelineError where
  | dateParse (e : String)
  | marshal (e : String)
  | bulkSubmit (e : String)
  | bulkItem (e : String)
deriving DecidableEq

/-- Function `flushBulk` (lines 312–347): a no-op on an empty buffer; otherwise
submit the buffer (recorded in the trace), fail on a transport error, fail
on the first item error when `errors` is set (the buffer is not cleared on
either failure, matching the early `return`), and otherwise clear the
buffer. -/
def flushBulkGo (store : StoreModel) (st : BulkState) : BulkState × Option PipelineError :=
  if st.buf.isEmpty then (st, none)
  else
    let st' : BulkState := ⟨st.buf, st.flushes ++ [st.buf]⟩
    match store st.flushes.length st.buf with
    | .error e => (st', some (.bulkSubmit e))
    | .ok resp =>
        match respFirstError resp with
        | some d => (st', some (.bulkItem d))
        | none => (⟨[], st'.flushes⟩, none)

/-- The `for i, a := range articles` loop of `bulkIndex` (lines 267–307)
followed by the final drain (line 309): normalize the date (abort on
failure), marshal the document (abort on a non-finite float, line 296),
append the metadata line and document, and flush when `(i+1)` is a
multiple of the batch size.  On a marshal failure Go has already written
the metadata line into the byte buffer (line 276) before aborting, but the
run returns at once and the buffer is never flushed again, so that
dangling line is unobservable; the model leaves the buffer at its
pre-record state. -/
def bulkIndexLoop (B : Nat) (store : StoreModel) :
    List Article → Nat → BulkState → BulkState × Option PipelineError
  | [], _, st => flushBulkGo store st
  | a :: rest, i, st =>
      match NormalizeToESDate a.publicationDate with
      | (_, some e) => (st, some (.dateParse e))
      | (fd, none) =>
          match marshalDoc (docOf a fd) with
          | some e => (st, some (.marshal e))
          | none =>
            let st' : BulkState :=
              ⟨st.buf ++ [⟨mkMeta indexName a.id, docOf a fd⟩], st.flushes⟩
            if (i + 1) % B = 0 then
              match flushBulkGo store st' with
              | (st'', some e) => (st'', some e)
              | (st'', none) => bulkIndexLoop B store rest (i + 1) st''
            else bulkIndexLoop B store rest (i + 1) st'

/-- Function `bulkIndex` (lines 263–310), generalized over the batch size constant
(the source fixes it to `bulkSize = 500`). -/
def bulkIndexGo (B : Nat) (store : StoreModel) (articles : List Article) :
    BulkState × Option PipelineError :=
  bulkIndexLoop B store articles 0 ⟨[], []⟩

/-! ### Chunking: the flush pattern of the loop, described declaratively -/

/-- Ceiling division, `⌈n / B⌉` for positive `B`. -/
def ceilDiv (n B : Nat) : Nat := (n + B - 1) / B

/-- Split a list into consecutive chunks of size `B` (last chunk possibly
shorter); `[]` for `B = 0`. -/
def chunksB {α : Type} (B : Nat) (l : List α) : List (List α) :=
  if h : B = 0 ∨ l.length = 0 then [] else l.take B :: chunksB B (l.drop B)
termination_by l.length
decreasing_by
  push_neg at h
  obtain ⟨hB, hl⟩ := h
  simp only [List.length_drop]
  omega

/-- Only the full (size exactly `B`) leading chunks. -/
def fullChunks {α : Type} (B : Nat) (l : List α) : List (List α) :=
  if h : B = 0 ∨ l.length < B then [] else l.take B :: fullChunks B (l.drop B)
termination_by l.length
decreasing_by
  push_neg at h
  obtain ⟨hB, hl⟩ := h
  simp only [List.length_drop]
  omega

/-- What remains after removing the full leading chunks. -/
def remChunk {α : Type} (B : Nat) (l : List α) : List α :=
  if h : B = 0 ∨ l.length < B then l else remChunk B (l.drop B)
termination_by l.length
decreasing_by
  push_neg at h
  obtain ⟨hB, hl⟩ := h
  simp only [List.length_drop]
  omega

theorem chunksB_len {α : Type} (B : Nat) (hB : 0 < B) (l : List α) :
    (chunksB B l).length = ceilDiv l.length B := by
  generalize hn : l.length = n
  induction n using Nat.strong_induction_on generalizing l with
  | _ n ih =>
    rw [chunksB]
    by_cases hl : l.length = 0
    · rw [dif_pos (Or.inr hl)]
      have : (B - 1) / B = 0 := Nat.div_eq_of_lt (by omega)
      simp [ceilDiv, ← hn, hl, this]
    · rw [dif_neg (by omega)]
      simp only [List.length_cons]
      by_cases hlen : l.length ≤ B
      · have hdrop : (l.drop B).length = 0 := by
          simp only [List.length_drop]; omega
        rw [chunksB, dif_pos (Or.inr hdrop)]
        have : (l.length + B - 1) / B = 1 := by
          apply Nat.div_eq_of_lt_le <;> omega
        simp [ceilDiv, ← hn, this]
      · push_neg at hlen
        have hdl : (l.drop B).length = l.length - B := by simp
        rw [ih (l.length - B) (by omega) (l.drop B) hdl]
        simp only [ceilDiv, ← hn]
        have expand : l.length + B - 1 = (l.length - B + B - 1) + B := by omega
        rw [expand, Nat.add_div_right _ hB]

theorem chunksB_nonempty {α : Type} (B : Nat) (l : List α) :
    ∀ c ∈ chunksB B l, c ≠ [] := by
  generalize hn : l.length = n
  induction n using Nat.strong_induction_on generalizing l with
  | _ n ih =>
    rw [chunksB]
    split
    · simp
    · next h =>
      push_neg at h
      obtain ⟨hB, hl⟩ := h
      intro c hc
      rcases List.mem_cons.mp hc with hc | hc
      · subst hc
        rw [Ne, List.take_eq_nil_iff]
        push_neg
        exact ⟨hB, fun habs => hl (by rw [habs]; rfl)⟩
      · exact ih (l.drop B).length (by subst hn; simp; omega) (l.drop B) rfl c hc

theorem chunksB_sizes {α : Type} (B : Nat) (l : List α) :
    ∀ c ∈ chunksB B l, c.length ≤ B := by
  generalize hn : l.length = n
  induction n using Nat.strong_induction_on generalizing l with
  | _ n ih =>
    rw [chunksB]
    split
    · simp
    · next h =>
      push_neg at h
      obtain ⟨hB, hl⟩ := h
      intro c hc
      rcases List.mem_cons.mp hc with hc | hc
      · subst hc; simp
      · exact ih (l.drop B).length (by subst hn; simp; omega) (l.drop B) rfl c hc

theorem chunksB_last {α : Type} (B : Nat) (hB : 0 < B) (l : List α)
    (hl : l ≠ []) :
    ∃ c, (chunksB B l).getLast? = some c ∧
      c.length = (if l.length % B = 0 then B else l.length % B) := by
  generalize hn : l.length = n
  induction n using Nat.strong_induction_on generalizing l with
  | _ n ih =>
    subst hn
    rw [chunksB]
    have hlen : l.length ≠ 0 := by
      have := List.length_pos.mpr hl; omega
    rw [dif_neg (by omega)]
    by_cases hcase : l.length ≤ B
    · have hdrop : (l.drop B).length = 0 := by simp; omega
      have hde : l.drop B = [] := List.eq_nil_of_length_eq_zero hdrop
      have hnil : chunksB B ([] : List α) = [] := by rw [chunksB]; simp
      rw [hde, hnil]
      refine ⟨l.take B, rfl, ?_⟩
      simp only [List.length_take]
      rcases Nat.lt_or_ge l.length B with hlt | hge
      · rw [if_neg (by rw [Nat.mod_eq_of_lt hlt]; omega), Nat.mod_eq_of_lt hlt]
        omega
      · have heq : l.length = B := by omega
        rw [heq, if_pos (Nat.mod_self B)]
        omega
    · push_neg at hcase
      have hdl : (l.drop B).length = l.length - B := by simp
      have hne : l.drop B ≠ [] := by
        intro habs
        rw [habs] at hdl
        simp at hdl; omega
      obtain ⟨c, hc1, hc2⟩ := ih (l.drop B).length (by omega) (l.drop B) hne rfl
      have hmod : (l.drop B).length % B = l.length % B := by
        rw [hdl]
        conv_rhs => rw [show l.length = (l.length - B) + B by omega]
        rw [Nat.add_mod_right]
      refine ⟨c, ?_, by rw [hc2, hmod]⟩
      cases hck : chunksB B (l.drop B) with
      | nil => rw [hck] at hc1; cases hc1
      | cons x xs =>
        rw [List.getLast?_cons_cons]
        rw [hck] at hc1
        exact hc1

theorem fullChunks_len {α : Type} (B : Nat) (hB : 0 < B) (l : List α) :
    (fullChunks B l).length = l.length / B := by
  generalize hn : l.length = n
  induction n using Nat.strong_induction_on generalizing l with
  | _ n ih =>
    subst hn
    rw [fullChunks]
    by_cases hc : l.length < B
    · rw [dif_pos (Or.inr hc), Nat.div_eq_of_lt hc]
      rfl
    · push_neg at hc
      rw [dif_neg (by omega)]
      simp only [List.length_cons]
      have hdl : (l.drop B).length = l.length - B := by simp
      rw [ih (l.drop B).length (by omega) (l.drop B) rfl, hdl,
        Nat.div_eq_sub_div hB hc]

theorem fullChunks_join {α : Type} (B : Nat) (hB : 0 < B) (l : List α) :
    (fullChunks B l).flatten = l.take (B * (l.length / B)) := by
  generalize hn : l.length = n
  induction n using Nat.strong_induction_on generalizing l with
  | _ n ih =>
    subst hn
    rw [fullChunks]
    by_cases hc : l.length < B
    · rw [dif_pos (Or.inr hc), Nat.div_eq_of_lt hc, Nat.mul_zero, List.take_zero]
      rfl
    · push_neg at hc
      rw [dif_neg (by omega)]
      simp only [List.flatten_cons]
      have hdl : (l.drop B).length = l.length - B := by simp
      rw [ih (l.drop B).length (by omega) (l.drop B) rfl, hdl,
        Nat.div_eq_sub_div hB hc]
      have hmul : B * ((l.length - B) / B + 1) = B + B * ((l.length - B) / B) := by
        ring
      rw [hmul, List.take_add]

theorem remChunk_eq {α : Type} (B : Nat) (hB : 0 < B) (l : List α) :
    remChunk B l = l.drop (B * (l.length / B)) := by
  generalize hn : l.length = n
  induction n using Nat.strong_induction_on generalizing l with
  | _ n ih =>
    subst hn
    rw [remChunk]
    by_cases hc : l.length < B
    · rw [dif_pos (Or.inr hc), Nat.div_eq_of_lt hc, Nat.mul_zero, List.drop_zero]
    · push_neg at hc
      rw [dif_neg (by omega)]
      have hdl : (l.drop B).length = l.length - B := by simp
      rw [ih (l.drop B).length (by omega) (l.drop B) rfl, hdl,
        Nat.div_eq_sub_div hB hc, List.drop_drop]
      congr 1
      ring

/-! ### The flush pattern of `bulkIndex` -/

theorem succ_mod (B i : Nat) : (i + 1) % B = (i % B + 1) % B := by
  conv_lhs => rw [← Nat.mod_add_div i B]
  rw [show i % B + B * (i / B) + 1 = i % B + 1 + B * (i / B) by ring,
    Nat.add_mul_mod_self_left]

theorem bufLen_flush {B i : Nat} (hB : 0 < B) (h : (i + 1) % B = 0) :
    i % B + 1 = B := by
  have hr : i % B < B := Nat.mod_lt _ hB
  rw [succ_mod] at h
  rcases Nat.lt_or_ge (i % B + 1) B with hlt | hge
  · rw [Nat.mod_eq_of_lt hlt] at h; omega
  · omega

theorem bufLen_noflush {B i : Nat} (hB : 0 < B) (h : (i + 1) % B ≠ 0) :
    (i + 1) % B = i % B + 1 := by
  have hr : i % B < B := Nat.mod_lt _ hB
  have hs := succ_mod B i
  rcases Nat.lt_or_ge (i % B + 1) B with hlt | hge
  · rw [hs, Nat.mod_eq_of_lt hlt]
  · have hEB : i % B + 1 = B := by omega
    rw [hs, hEB, Nat.mod_self] at h
    exact absurd rfl h

/-- A store whose every answer is a decoded response carrying no reportable
item failure. -/
def storeAccepts (store : StoreModel) : Prop :=
  ∀ n b, ∃ resp, store n b = .ok resp ∧ respFirstError resp = none

theorem okStore_accepts : storeAccepts okStore :=
  fun _ _ => ⟨⟨false, []⟩, rfl, rfl⟩

theorem chunksB_nil {α : Type} (B : Nat) : chunksB B ([] : List α) = [] := by
  rw [chunksB]; simp


/-- The loop invariant: with `i` records already processed and the buffer
holding exactly `i % B` of them, an all-accepting store and all-normalizing
remaining records lead to success, with the future flush trace being
exactly the `B`-chunking of buffer plus remaining entries. -/
theorem bulkIndexLoop_ok {B : Nat} (hB : 0 < B) {store : StoreModel}
    (hstore : storeAccepts store) :
    ∀ (rest : List Article) (i : Nat) (st : BulkState),
      (∀ a ∈ rest, (NormalizeToESDate a.publicationDate).2 = none) →
      (∀ a ∈ rest, articleFloatsFinite a = true) →
      st.buf.length = i % B →
      bulkIndexLoop B store rest i st =
        (⟨[], st.flushes ++ chunksB B (st.buf ++ rest.map entryOf)⟩, none) := by
  intro rest
  induction rest with
  | nil =>
    intro i st _ _ hbuf
    obtain ⟨buf, flushes⟩ := st
    simp only [List.map_nil, List.append_nil, bulkIndexLoop, flushBulkGo]
    by_cases he : buf.isEmpty
    · have hb : buf = [] := by simpa [List.isEmpty_iff] using he
      subst hb
      simp [chunksB_nil]
    · rw [if_neg he]
      have hb : buf ≠ [] := by simpa [List.isEmpty_iff] using he
      obtain ⟨resp, hresp, herr⟩ := hstore flushes.length buf
      rw [hresp]
      simp only [herr]
      have hlt : buf.length < B := by
        simp only at hbuf
        rw [hbuf]
        exact Nat.mod_lt _ hB
      have hch : chunksB B buf = [buf] := by
        rw [chunksB, dif_neg (by
          push_neg
          exact ⟨by omega, by have := List.length_pos.mpr hb; omega⟩)]
        rw [List.take_of_length_le (by omega), List.drop_eq_nil_of_le (by omega),
          chunksB_nil]
      rw [hch]
  | cons a rest ih =>
    intro i st hnorm hmar hbuf
    obtain ⟨buf, flushes⟩ := st
    simp only at hbuf
    have hna : (NormalizeToESDate a.publicationDate).2 = none :=
      hnorm a (List.mem_cons_self a rest)
    have hfd : NormalizeToESDate a.publicationDate =
        ((NormalizeToESDate a.publicationDate).1, none) := by
      rw [← hna]
    have hma : articleFloatsFinite a = true := hmar a (List.mem_cons_self a rest)
    have hentry : entryOf a =
        ⟨mkMeta indexName a.id, docOf a (NormalizeToESDate a.publicationDate).1⟩ := rfl
    have hrestnorm : ∀ x ∈ rest, (NormalizeToESDate x.publicationDate).2 = none :=
      fun x hx => hnorm x (List.mem_cons_of_mem a hx)
    have hrestmar : ∀ x ∈ rest, articleFloatsFinite x = true :=
      fun x hx => hmar x (List.mem_cons_of_mem a hx)
    simp only [bulkIndexLoop]
    rw [hfd]
    simp only
    rw [marshalDoc_docOf_none hma]
    simp only
    rw [← hentry]
    by_cases hflush : (i + 1) % B = 0
    · rw [if_pos hflush]
      have hlenB : (buf ++ [entryOf a]).length = B := by
        simp only [List.length_append, List.length_cons, List.length_nil]
        have := bufLen_flush hB hflush
        omega
      have hne : ¬(buf ++ [entryOf a]).isEmpty := by simp
      rw [flushBulkGo, if_neg hne]
      obtain ⟨resp, hresp, herr⟩ := hstore flushes.length (buf ++ [entryOf a])
      rw [hresp]
      simp only [herr]
      rw [ih (i + 1) ⟨[], flushes ++ [buf ++ [entryOf a]]⟩ hrestnorm hrestmar
          (by simp [hflush])]
      have hck : chunksB B (buf ++ (a :: rest).map entryOf) =
          (buf ++ [entryOf a]) :: chunksB B (rest.map entryOf) := by
        rw [List.map_cons,
          show buf ++ entryOf a :: rest.map entryOf =
            (buf ++ [entryOf a]) ++ rest.map entryOf by simp]
        rw [chunksB, dif_neg (by
          push_neg
          refine ⟨by omega, ?_⟩
          simp only [List.length_append, List.length_map]
          have := bufLen_flush hB hflush
          simp only [List.length_cons, List.length_nil]
          omega)]
        rw [List.take_left' hlenB, List.drop_left' hlenB]
      rw [hck]
      simp
    · rw [if_neg hflush]
      rw [ih (i + 1) ⟨buf ++ [entryOf a], flushes⟩ hrestnorm hrestmar
          (by
            simp only [List.length_append, List.length_cons, List.length_nil]
            rw [bufLen_noflush hB hflush]
            omega)]
      simp

theorem fullChunks_small {α : Type} {B : Nat} {l : List α} (h : l.length < B) :
    fullChunks B l = [] := by
  rw [fullChunks, dif_pos (Or.inr h)]

theorem remChunk_small {α : Type} {B : Nat} {l : List α} (h : l.length < B) :
    remChunk B l = l := by
  rw [remChunk, dif_pos (Or.inr h)]

theorem fullChunks_append_full {α : Type} {B : Nat} (hB : 0 < B)
    {L1 L2 : List α} (h : L1.length = B) :
    fullChunks B (L1 ++ L2) = L1 :: fullChunks B L2 := by
  rw [fullChunks, dif_neg (by
    push_neg
    refine ⟨by omega, ?_⟩
    simp only [List.length_append]
    omega)]
  rw [List.take_left' h, List.drop_left' h]

theorem remChunk_append_full {α : Type} {B : Nat} (hB : 0 < B)
    {L1 L2 : List α} (h : L1.length = B) :
    remChunk B (L1 ++ L2) = remChunk B L2 := by
  rw [remChunk, dif_neg (by
    push_neg
    refine ⟨by omega, ?_⟩
    simp only [List.length_append]
    omega)]
  rw [List.drop_left' h]

/-- The loop on a record sequence whose first normalization failure is at
the article `bad`: the loop stops there with the date error, the flushes
submitted are exactly the full batches among the records before `bad`, and
the leftover records sit unflushed in the buffer. -/
theorem bulkIndexLoop_fail {B : Nat} (hB : 0 < B) {store : StoreModel}
    (hstore : storeAccepts store) :
    ∀ (good : List Article) (bad : Article) (post : List Article) (i : Nat)
      (st : BulkState) (e : String),
      (∀ a ∈ good, (NormalizeToESDate a.publicationDate).2 = none) →
      (∀ a ∈ good, articleFloatsFinite a = true) →
      (NormalizeToESDate bad.publicationDate).2 = some e →
      st.buf.length = i % B →
      bulkIndexLoop B store (good ++ bad :: post) i st =
        (⟨remChunk B (st.buf ++ good.map entryOf),
          st.flushes ++ fullChunks B (st.buf ++ good.map entryOf)⟩,
         some (.dateParse e)) := by
  intro good
  induction good with
  | nil =>
    intro bad post i st e _ _ hbad hbuf
    obtain ⟨buf, flushes⟩ := st
    simp only at hbuf
    have hfd : NormalizeToESDate bad.publicationDate =
        ((NormalizeToESDate bad.publicationDate).1, some e) := by
      rw [← hbad]
    simp only [List.nil_append, List.map_nil, List.append_nil, bulkIndexLoop]
    rw [hfd]
    simp only
    have hlt : buf.length < B := by rw [hbuf]; exact Nat.mod_lt _ hB
    rw [remChunk_small hlt, fullChunks_small hlt]
    simp
  | cons p good ih =>
    intro bad post i st e hnorm hmar hbad hbuf
    obtain ⟨buf, flushes⟩ := st
    simp only at hbuf
    have hna : (NormalizeToESDate p.publicationDate).2 = none :=
      hnorm p (List.mem_cons_self p good)
    have hfd : NormalizeToESDate p.publicationDate =
        ((NormalizeToESDate p.publicationDate).1, none) := by
      rw [← hna]
    have hmp : articleFloatsFinite p = true := hmar p (List.mem_cons_self p good)
    have hentry : entryOf p =
        ⟨mkMeta indexName p.id, docOf p (NormalizeToESDate p.publicationDate).1⟩ := rfl
    have hrestnorm : ∀ x ∈ good, (NormalizeToESDate x.publicationDate).2 = none :=
      fun x hx => hnorm x (List.mem_cons_of_mem p hx)
    have hrestmar : ∀ x ∈ good, articleFloatsFinite x = true :=
      fun x hx => hmar x (List.mem_cons_of_mem p hx)
    simp only [List.cons_append, bulkIndexLoop, List.append_eq]
    rw [hfd]
    simp only
    rw [marshalDoc_docOf_none hmp]
    simp only
    rw [← hentry]
    have hassoc : buf ++ (p :: good).map entryOf =
        (buf ++ [entryOf p]) ++ good.map entryOf := by simp
    by_cases hflush : (i + 1) % B = 0
    · rw [if_pos hflush]
      have hlenB : (buf ++ [entryOf p]).length = B := by
        simp only [List.length_append, List.length_cons, List.length_nil]
        have := bufLen_flush hB hflush
        omega
      have hne : ¬(buf ++ [entryOf p]).isEmpty := by simp
      rw [flushBulkGo, if_neg hne]
      obtain ⟨resp, hresp, herr⟩ := hstore flushes.length (buf ++ [entryOf p])
      rw [hresp]
      simp only [herr]
      rw [ih bad post (i + 1) ⟨[], flushes ++ [buf ++ [entryOf p]]⟩ e hrestnorm
          hrestmar hbad (by simp [hflush])]
      rw [hassoc, fullChunks_append_full hB hlenB, remChunk_append_full hB hlenB]
      simp
    · rw [if_neg hflush]
      rw [ih bad post (i + 1) ⟨buf ++ [entryOf p], flushes⟩ e hrestnorm hrestmar
          hbad (by
            simp only [List.length_append, List.length_cons, List.length_nil]
            rw [bufLen_noflush hB hflush]
            omega)]
      rw [hassoc]

/-! ### Schema provisioner (lines 121–244) and driver (lines 63–119) -/

/-- The environment a `createMappingsSettings` call runs against: the HTTP
status of the `Indices.Exists` probe and the transport outcome of the
create request (`.ok status`, even an error status, or a transport
`.error`). -/
structure ESEnv where
  existsStatus : Nat
  createResult : Except String Nat

/-- Function `createMappingsSettings` (lines 121–244): return `nil` at once when the
existence probe answers 200 (no create request issued); otherwise issue the
create request; only a transport failure is returned — an error *response*
is merely logged (lines 238–243) and `nil` is returned.  The result is
(whether a create request was issued, the returned error). -/
def createMappingsSettingsGo (env : ESEnv) : Bool × Option String :=
  if env.existsStatus = 200 then (false, none)
  else
    match env.createResult with
    | .error e => (true, some e)
    | .ok _ => (true, none)

/-- Function `loadArticles` failure kinds (lines 246–261): the `os.Stat` miss and
the `json.Unmarshal` failure. -/
inductive LoadErr where
  | notFound (e : String)
  | parseErr (e : String)

/-- The spec's §7 error kinds, as observed at `main`'s exit, plus the
`json.Marshal` failure `bulkIndex` can also surface (fatal like every
other `bulkIndex` error; unreachable for `loadArticles` output, since
`json.Unmarshal` into `float64` never produces NaN/±Inf). -/
inductive ErrKind where
  | clientInit
  | fileNotFound
  | fileParse
  | dateParse
  | marshalValue
  | bulkSubmit
  | bulkItem
deriving DecidableEq

/-- The observable outcome of a run of `main`: a `log.Fatal` exit labelled
with the failing kind, or completion (with whether a schema-creation error
was logged on the way, and the reported article count). -/
inductive RunOutcome where
  | fatalExit (k : ErrKind)
  | completed (schemaErrLogged : Bool) (count : Nat)
deriving DecidableEq

/-- The environment `main` runs against. -/
structure MainEnv where
  clientInitErr : Option String
  schema : ESEnv
  loadResult : Except LoadErr (List Article)
  store : StoreModel

/-- Function `main` (utils/time.go lines 63–119): client-init failure is
`log.Fatal`; a `createMappingsSettings` error is only logged (`log.Error`,
lines 103–105) and the run continues; a load failure is `log.Fatal`; a
`bulkIndex` error is `log.Fatal`; otherwise the summary line is logged. -/
def mainGo (env : MainEnv) : RunOutcome :=
  match env.clientInitErr with
  | some _ => .fatalExit .clientInit
  | none =>
    let schemaErr := (createMappingsSettingsGo env.schema).2
    match env.loadResult with
    | .error (.notFound _) => .fatalExit .fileNotFound
    | .error (.parseErr _) => .fatalExit .fileParse
    | .ok articles =>
      match (bulkIndexGo bulkSize env.store articles).2 with
      | some (.dateParse _) => .fatalExit .dateParse
      | some (.marshal _) => .fatalExit .marshalValue
      | some (.bulkSubmit _) => .fatalExit .bulkSubmit
      | some (.bulkItem _) => .fatalExit .bulkItem
      | none => .completed schemaErr.isSome articles.length

/-! ### First-error semantics of the response scan -/

/-- Declarative description of "`d` is the structured detail of the first
action with a non-nil error in the items": everything strictly before it
carries no error. -/
def FirstItemError (items : List BulkItem) (d : String) : Prop :=
  ∃ (ipre isuf : List BulkItem) (item : BulkItem)
    (apre asuf : List (String × BulkAction)) (nm : String) (act : BulkAction),
    items = ipre ++ item :: isuf ∧
    item = apre ++ (nm, act) :: asuf ∧
    act.error = some d ∧
    (∀ it ∈ ipre, ∀ q ∈ it, (q : String × BulkAction).2.error = none) ∧
    (∀ q ∈ apre, (q : String × BulkAction).2.error = none)

theorem scanActions_none {it : BulkItem}
    (h : ∀ q ∈ it, (q : String × BulkAction).2.error = none) :
    scanActions it = none := by
  induction it with
  | nil => rfl
  | cons q rest ih =>
    have hq : q.2.error = none := h q (List.mem_cons_self q rest)
    rw [scanActions]
    rw [hq]
    exact ih fun x hx => h x (List.mem_cons_of_mem q hx)

theorem scanActions_first {apre asuf : List (String × BulkAction)}
    {nm : String} {act : BulkAction} {d : String} (hd : act.error = some d)
    (hclean : ∀ q ∈ apre, (q : String × BulkAction).2.error = none) :
    scanActions (apre ++ (nm, act) :: asuf) = some d := by
  induction apre with
  | nil =>
    rw [List.nil_append, scanActions, hd]
  | cons q rest ih =>
    have hq : q.2.error = none := hclean q (List.mem_cons_self q rest)
    rw [List.cons_append, scanActions, hq]
    exact ih fun x hx => hclean x (List.mem_cons_of_mem q hx)

theorem scanItems_none {items : List BulkItem}
    (h : ∀ it ∈ items, ∀ q ∈ it, (q : String × BulkAction).2.error = none) :
    scanItems items = none := by
  induction items with
  | nil => rfl
  | cons it rest ih =>
    rw [scanItems, scanActions_none (h it (List.mem_cons_self it rest))]
    exact ih fun x hx => h x (List.mem_cons_of_mem it hx)

theorem scanItems_first {items : List BulkItem} {d : String}
    (h : FirstItemError items d) : scanItems items = some d := by
  obtain ⟨ipre, isuf, item, apre, asuf, nm, act, hitems, hitem, hd, hipre, hapre⟩ := h
  subst hitems hitem
  induction ipre with
  | nil =>
    rw [List.nil_append, scanItems, scanActions_first hd hapre]
  | cons it rest ih =>
    rw [List.cons_append, scanItems,
      scanActions_none (hipre it (List.mem_cons_self it rest))]
    exact ih fun x hx => hipre x (List.mem_cons_of_mem it hx)

/-! ### JSON well-formedness of the interpolated metadata line

A recursive-descent checker for RFC 8259 JSON text over character lists.
Inside strings the unescaped characters are anything other than `"`, `\`
and the control characters below U+0020; escapes are the simple ones and
`\uXXXX`.  Nesting and member/element iteration run on fuel; three units of
fuel per remaining character always suffice, so the top-level entry point
supplies `3 * length + 3`. -/

/-- JSON insignificant whitespace. -/
def isJsonWs (c : Char) : Bool :=
  c = ' ' || c = '\t' || c = '\n' || c = '\r'

def skipWs : List Char → List Char
  | [] => []
  | c :: rest => if isJsonWs c then skipWs rest else c :: rest

def isHexDigitChar (c : Char) : Bool :=
  isDigitChar c || (97 ≤ c.toNat && c.toNat ≤ 102) || (65 ≤ c.toNat && c.toNat ≤ 70)

/-- Scan a JSON string body after the opening quote; returns the remainder
after the closing quote. -/
def scanStringBody : List Char → Option (List Char)
  | [] => none
  | c :: rest =>
    if c = '"' then some rest
    else if c = '\\' then
      match rest with
      | [] => none
      | e :: rest2 =>
        if e = '"' || e = '\\' || e = '/' || e = 'b' || e = 'f' ||
            e = 'n' || e = 'r' || e = 't' then
          scanStringBody rest2
        else if e = 'u' then
          match rest2 with
          | h1 :: h2 :: h3 :: h4 :: rest3 =>
            if isHexDigitChar h1 && isHexDigitChar h2 &&
                isHexDigitChar h3 && isHexDigitChar h4 then
              scanStringBody rest3
            else none
          | _ => none
        else none
    else if c.toNat < 32 then none
    else scanStringBody rest

/-- Zero or more further decimal digits. -/
def scanDigitsMany : List Char → List Char
  | [] => []
  | c :: rest => if isDigitChar c then scanDigitsMany rest else c :: rest

/-- JSON `int` part after the optional sign: `0` or a nonzero digit
followed by digits. -/
def scanIntPart : List Char → Option (List Char)
  | [] => none
  | c :: rest =>
    if c = '0' then some rest
    else if isDigitChar c then some (scanDigitsMany rest)
    else none

/-- Optional JSON `frac` part. -/
def scanFracPart : List Char → Option (List Char)
  | '.' :: rest =>
    match rest with
    | c :: r2 => if isDigitChar c then some (scanDigitsMany r2) else none
    | [] => none
  | l => some l

/-- Optional JSON `exp` part. -/
def scanExpPart : List Char → Option (List Char)
  | c :: rest =>
    if c = 'e' || c = 'E' then
      match rest with
      | s :: r2 =>
        if s = '+' || s = '-' then
          match r2 with
          | d :: r3 => if isDigitChar d then some (scanDigitsMany r3) else none
          | [] => none
        else if isDigitChar s then some (scanDigitsMany r2)
        else none
      | [] => none
    else some (c :: rest)
  | [] => some []

/-- A JSON number starting at the given characters (leading `-` allowed). -/
def scanNumber (l : List Char) : Option (List Char) :=
  let l1 := match l with
    | '-' :: r => r
    | _ => l
  match scanIntPart l1 with
  | none => none
  | some l2 =>
    match scanFracPart l2 with
    | none => none
    | some l3 => scanExpPart l3

/-- Consume an exact keyword. -/
def scanKeyword : List Char → List Char → Option (List Char)
  | [], l => some l
  | k :: ks, c :: rest => if c = k then scanKeyword ks rest else none
  | _ :: _, [] => none

/-- The five states of the recursive-descent walk: a value; object contents
after `{`; members after the first `"`-key is due; array contents after
`[`; elements. -/
inductive JsonMode where
  | value
  | objBody
  | members
  | arrBody
  | elems

/-- The JSON grammar walk, fuel-indexed (fuel only bounds recursion depth
and iteration count; it never changes acceptance when large enough). -/
def jsonRun : Nat → JsonMode → List Char → Option (List Char)
  | 0, _, _ => none
  | fuel + 1, .value, l =>
    (match skipWs l with
     | [] => none
     | c :: rest =>
       if c = '"' then scanStringBody rest
       else if c = '{' then jsonRun fuel .objBody (skipWs rest)
       else if c = '[' then jsonRun fuel .arrBody (skipWs rest)
       else if c = 't' then scanKeyword ['r', 'u', 'e'] rest
       else if c = 'f' then scanKeyword ['a', 'l', 's', 'e'] rest
       else if c = 'n' then scanKeyword ['u', 'l', 'l'] rest
       else if c = '-' || isDigitChar c then scanNumber (c :: rest)
       else none)
  | fuel + 1, .objBody, l =>
    (match l with
     | '}' :: rest => some rest
     | _ => jsonRun fuel .members l)
  | fuel + 1, .members, l =>
    (match l with
     | [] => none
     | c :: rest =>
       if c = '"' then
         match scanStringBody rest with
         | none => none
         | some r2 =>
           match skipWs r2 with
           | ':' :: r3 =>
             match jsonRun fuel .value r3 with
             | none => none
             | some r4 =>
               match skipWs r4 with
               | ',' :: r5 => jsonRun fuel .members (skipWs r5)
               | '}' :: r5 => some r5
               | _ => none
           | _ => none
       else none)
  | fuel + 1, .arrBody, l =>
    (match l with
     | ']' :: rest => some rest
     | _ => jsonRun fuel .elems l)
  | fuel + 1, .elems, l =>
    (match jsonRun fuel .value l with
     | none => none
     | some r =>
       match skipWs r with
       | ',' :: r2 => jsonRun fuel .elems r2
       | ']' :: r2 => some r2
       | _ => none)

/-- A string is a well-formed JSON text whose single value is an object. -/
def isJsonObjectString (s : String) : Bool :=
  (match skipWs s.data with
   | '{' :: _ => true
   | _ => false) &&
  (match jsonRun (3 * s.data.length + 3) .value s.data with
   | some r => (skipWs r).isEmpty
   | none => false)

example : isJsonObjectString "\x7b \"a\": 1, \"b\": [true, null, -2.5e3] \x7d" = true := by
  decide
example : isJsonObjectString "\x7b \"a\": 1" = false := by decide
example : isJsonObjectString "[1, 2]" = false := by decide
example : isJsonObjectString "\x7b \"a\": \"x\ty\" \x7d" = false := by decide
example : isJsonObjectString "\x7b \"a\": \"x\\ty\" \x7d" = true := by decide
example : isJsonObjectString "\x7b \"a\": \"x\\u00e9y\" \x7d" = true := by decide

/-- Characters that pass through a JSON string literal unescaped: not the
quote, not the backslash, not a control character below U+0020. -/
def jsonSafeChar (c : Char) : Bool :=
  decide (c ≠ '"') && decide (c ≠ '\\') && decide (32 ≤ c.toNat)

/-- The precondition named by the spec claim: no double-quote, no
backslash, no newline. -/
def noQuoteBackslashNewline (c : Char) : Bool :=
  decide (c ≠ '"') && decide (c ≠ '\\') && decide (c ≠ '\n')

set_option maxHeartbeats 1000000 in
theorem scanStringBody_safe {cs : List Char}
    (h : ∀ c ∈ cs, jsonSafeChar c = true) (rest : List Char) :
    scanStringBody (cs ++ '"' :: rest) = some rest := by
  induction cs with
  | nil =>
    rw [List.nil_append, scanStringBody.eq_def]
    simp
  | cons c cs ih =>
    have hc := h c (List.mem_cons_self c cs)
    simp only [jsonSafeChar, Bool.and_eq_true, decide_eq_true_eq] at hc
    obtain ⟨⟨h1, h2⟩, h3⟩ := hc
    rw [List.cons_append, scanStringBody.eq_def]
    simp only
    rw [if_neg h1, if_neg h2, if_neg (by omega)]
    exact ih fun x hx => h x (List.mem_cons_of_mem c hx)

/-- The metadata line: everything `mkMeta` emits before its terminating
newline. -/
def metaLine (id : String) : String :=
  "\x7b \"index\": \x7b \"_index\": \"" ++ indexName ++ "\", \"_id\": \"" ++ id ++
    "\" \x7d \x7d"

theorem mkMeta_metaLine (id : String) :
    mkMeta indexName id = metaLine id ++ "\n" := by
  apply String.ext
  simp [mkMeta, metaLine, String.data_append]

/-- The characters of the metadata line, with each interpolated or literal
string-literal content grouped as an append block. -/
theorem metaLine_data (id : String) :
    (metaLine id).data =
      '{' :: ' ' :: '"' ::
      (['i', 'n', 'd', 'e', 'x'] ++ '"' :: ':' :: ' ' :: '{' :: ' ' :: '"' ::
        (['_', 'i', 'n', 'd', 'e', 'x'] ++ '"' :: ':' :: ' ' :: '"' ::
          (['i', 'n', 's', 'h', 'o', 'r', 't', 's', '-', 'n', 'e', 'w', 's'] ++
            '"' :: ',' :: ' ' :: '"' ::
            (['_', 'i', 'd'] ++ '"' :: ':' :: ' ' :: '"' ::
              (id.data ++ '"' :: ' ' :: '}' :: ' ' :: '}' :: []))))) := by
  simp [metaLine, indexName, String.data_append]

set_option maxHeartbeats 1000000 in
/-- Stepping the JSON walk through the metadata line for a JSON-safe
identifier: nine fuel levels beyond any slack suffice and the whole line is
consumed. -/
theorem jsonRun_metaLine (f : Nat) (id : String)
    (h : ∀ c ∈ id.data, jsonSafeChar c = true) :
    jsonRun (f + 9) .value (metaLine id).data = some [] := by
  have hIdx : ∀ rest : List Char,
      scanStringBody ('i' :: 'n' :: 'd' :: 'e' :: 'x' :: '"' :: rest) = some rest :=
    fun rest => @scanStringBody_safe ['i', 'n', 'd', 'e', 'x'] (by decide) rest
  have hUIdx : ∀ rest : List Char,
      scanStringBody ('_' :: 'i' :: 'n' :: 'd' :: 'e' :: 'x' :: '"' :: rest) = some rest :=
    fun rest => @scanStringBody_safe ['_', 'i', 'n', 'd', 'e', 'x'] (by decide) rest
  have hNews : ∀ rest : List Char,
      scanStringBody ('i' :: 'n' :: 's' :: 'h' :: 'o' :: 'r' :: 't' :: 's' :: '-' ::
        'n' :: 'e' :: 'w' :: 's' :: '"' :: rest) = some rest :=
    fun rest => @scanStringBody_safe
      ['i', 'n', 's', 'h', 'o', 'r', 't', 's', '-', 'n', 'e', 'w', 's'] (by decide) rest
  have hUId : ∀ rest : List Char,
      scanStringBody ('_' :: 'i' :: 'd' :: '"' :: rest) = some rest :=
    fun rest => @scanStringBody_safe ['_', 'i', 'd'] (by decide) rest
  have hId := scanStringBody_safe h
  rw [metaLine_data]
  simp +decide [jsonRun, skipWs, isJsonWs, hIdx, hUIdx, hNews, hUId, hId]

theorem metaLine_length (id : String) :
    (metaLine id).data.length = 53 + id.data.length := by
  rw [metaLine_data]
  simp only [List.length_cons, List.length_append, List.length_nil]
  omega

/-- For identifiers whose characters are JSON-safe, the metadata line is a
well-formed JSON object text. -/
theorem metaLine_valid (id : String)
    (h : ∀ c ∈ id.data, jsonSafeChar c = true) :
    isJsonObjectString (metaLine id) = true := by
  unfold isJsonObjectString
  have hfuel : 3 * (metaLine id).data.length + 3 = (3 * id.data.length + 153) + 9 := by
    rw [metaLine_length]; ring
  rw [hfuel, jsonRun_metaLine (3 * id.data.length + 153) id h, metaLine_data]
  simp +decide [skipWs, isJsonWs]

/-- For identifiers whose characters are JSON-safe, the metadata line
contains no newline, so the payload's one-object-per-line structure is
kept. -/
theorem metaLine_no_newline (id : String)
    (h : ∀ c ∈ id.data, jsonSafeChar c = true) :
    '\n' ∉ (metaLine id).data := by
  rw [metaLine_data]
  intro hmem
  simp +decide [List.mem_cons, List.mem_append] at hmem
  have := h '\n' hmem
  simp [jsonSafeChar] at this

/-! ### Sample data for concrete instantiations -/

/-- An article with a well-formed publication date and finite floats. -/
def artOK (id : String) : Article :=
  { id := id, title := "Title", description := "Desc", url := "http://example.com"
    publicationDate := "2024-01-15T10:30:00", sourceName := "Src", category := ["news"]
    relevanceScore := .finite (1 / 2), latitude := .finite (3 / 2)
    longitude := .finite (5 / 2), llmSummary := "" }

/-- An article whose publication date does not parse. -/
def artBad : Article :=
  { id := "bad", title := "Title", description := "Desc", url := "http://example.com"
    publicationDate := "not-a-date", sourceName := "Src", category := ["news"]
    relevanceScore := .finite (1 / 2), latitude := .finite (3 / 2)
    longitude := .finite (5 / 2), llmSummary := "" }

/-- An article with a well-formed publication date whose relevance score is
NaN, so its document does not marshal. -/
def artNaN : Article :=
  { id := "nan-art", title := "Title", description := "Desc", url := "http://example.com"
    publicationDate := "2024-01-15T10:30:00", sourceName := "Src", category := ["news"]
    relevanceScore := .nan, latitude := .finite (3 / 2)
    longitude := .finite (5 / 2), llmSummary := "" }

/-- A sample buffered entry. -/
def sampleEntry : BulkEntry :=
  ⟨mkMeta indexName "a", docOf (artOK "a") "2024-01-15T10:30:00.000Z"⟩

/-! ### The claims -/

/-- C1 counterexample: a single article with a well-formed publication
date but a NaN relevance score.  Its date normalizes, the store accepts
everything and the batch size is positive, yet `json.Marshal` rejects the
document (line 296) and the pipeline aborts with that error after zero
flush submissions — not the ⌈1/2⌉ = 1 the claim demands. -/
theorem claim_c1_counterexample :
    0 < 2 ∧ storeAccepts okStore ∧
    (∀ a ∈ [artNaN], (NormalizeToESDate a.publicationDate).2 = none) ∧
    ceilDiv ([artNaN] : List Article).length 2 = 1 ∧
    (bulkIndexGo 2 okStore [artNaN]).1.flushes.length = 0 ∧
    (bulkIndexGo 2 okStore [artNaN]).2 =
      some (.marshal "json: unsupported value") :=
  ⟨by decide, okStore_accepts, by decide, by decide, by decide, by decide⟩

/-- C1 amended: for every list of N articles all of whose publication
dates normalize successfully *and all of whose numeric fields are finite
(so every document marshals)*, and positive batch size B, a run against an
all-accepting store succeeds; it submits exactly ⌈N/B⌉ flushes; no
submitted flush is empty (the final drain on an empty payload is a no-op);
and the last flush carries exactly N mod B records, or B when N is an
exact multiple of B. -/
theorem claim_c1 (B : Nat) (store : StoreModel) (articles : List Article)
    (hB : 0 < B) (hstore : storeAccepts store)
    (hnorm : ∀ a ∈ articles, (NormalizeToESDate a.publicationDate).2 = none)
    (hmar : ∀ a ∈ articles, articleFloatsFinite a = true) :
    (bulkIndexGo B store articles).2 = none ∧
    (bulkIndexGo B store articles).1.flushes.length = ceilDiv articles.length B ∧
    (∀ f ∈ (bulkIndexGo B store articles).1.flushes, f ≠ []) ∧
    (articles ≠ [] →
      ∃ lastFlush,
        (bulkIndexGo B store articles).1.flushes.getLast? = some lastFlush ∧
        lastFlush.length =
          (if articles.length % B = 0 then B else articles.length % B)) := by
  have hrun := bulkIndexLoop_ok hB hstore articles 0 ⟨[], []⟩ hnorm hmar (by simp)
  unfold bulkIndexGo
  rw [hrun]
  simp only [List.nil_append]
  refine ⟨by trivial, ?_, ?_, ?_⟩
  · rw [chunksB_len B hB]
    simp [ceilDiv]
  · exact chunksB_nonempty B (articles.map entryOf)
  · intro hne
    obtain ⟨c, h1, h2⟩ := chunksB_last B hB (articles.map entryOf) (by simpa using hne)
    refine ⟨c, h1, ?_⟩
    simpa using h2

theorem claim_c1_witness :
    0 < 2 ∧ storeAccepts okStore ∧
    (∀ a ∈ [artOK "a", artOK "b", artOK "c"],
      (NormalizeToESDate a.publicationDate).2 = none) ∧
    (∀ a ∈ [artOK "a", artOK "b", artOK "c"], articleFloatsFinite a = true) ∧
    ((bulkIndexGo 2 okStore [artOK "a", artOK "b", artOK "c"]).2 = none ∧
     (bulkIndexGo 2 okStore [artOK "a", artOK "b", artOK "c"]).1.flushes.length =
       ceilDiv ([artOK "a", artOK "b", artOK "c"] : List Article).length 2 ∧
     (∀ f ∈ (bulkIndexGo 2 okStore [artOK "a", artOK "b", artOK "c"]).1.flushes,
        f ≠ []) ∧
     (([artOK "a", artOK "b", artOK "c"] : List Article) ≠ [] →
      ∃ lastFlush,
        (bulkIndexGo 2 okStore
          [artOK "a", artOK "b", artOK "c"]).1.flushes.getLast? = some lastFlush ∧
        lastFlush.length =
          (if ([artOK "a", artOK "b", artOK "c"] : List Article).length % 2 = 0
           then 2 else ([artOK "a", artOK "b", artOK "c"] : List Article).length % 2))) :=
  ⟨by decide, okStore_accepts, by decide, by decide,
    claim_c1 2 okStore [artOK "a", artOK "b", artOK "c"] (by decide) okStore_accepts
      (by decide) (by decide)⟩

/-- C10: on the empty article list the pipeline succeeds and submits zero
bulk requests: the single trailing flush call observes an empty payload
and returns success without any submission. -/
theorem claim_c10 (B : Nat) (store : StoreModel) :
    bulkIndexGo B store [] = (⟨[], []⟩, none) := rfl

/-- C2: a flush whose decoded response has `errors = true` and at least one
item with a non-null structured error fails with an error wrapping the
first such detail (scanning stops at it); a flush whose response has
`errors = false` never fails on item errors. -/
theorem claim_c2 :
    (∀ (resp : BulkResponse) (st : BulkState) (d : String),
      st.buf ≠ [] → resp.errors = true → FirstItemError resp.items d →
      flushBulkGo (constStore resp) st =
        (⟨st.buf, st.flushes ++ [st.buf]⟩, some (.bulkItem d))) ∧
    (∀ (resp : BulkResponse) (st : BulkState),
      resp.errors = false → (flushBulkGo (constStore resp) st).2 = none) := by
  constructor
  · intro resp st d hne herr hfirst
    unfold flushBulkGo constStore
    rw [if_neg (by simpa [List.isEmpty_iff] using hne)]
    simp only [respFirstError, herr, if_pos, scanItems_first hfirst]
  · intro resp st hfalse
    unfold flushBulkGo constStore
    by_cases he : st.buf.isEmpty
    · rw [if_pos he]
    · rw [if_neg he]
      simp [respFirstError, hfalse]

theorem claim_c2_witness :
    (([sampleEntry] : List BulkEntry) ≠ [] ∧
     (true : Bool) = true ∧
     FirstItemError [[("index", ⟨400, some "mapper_parsing_exception"⟩)]]
       "mapper_parsing_exception" ∧
     flushBulkGo
       (constStore ⟨true, [[("index", ⟨400, some "mapper_parsing_exception"⟩)]]⟩)
       ⟨[sampleEntry], []⟩ =
       (⟨[sampleEntry], [] ++ [[sampleEntry]]⟩,
        some (.bulkItem "mapper_parsing_exception"))) ∧
    ((false : Bool) = false ∧
     (flushBulkGo (constStore ⟨false, []⟩) ⟨[sampleEntry], []⟩).2 = none) := by
  have hfirst : FirstItemError [[("index", ⟨400, some "mapper_parsing_exception"⟩)]]
      "mapper_parsing_exception" :=
    ⟨[], [], [("index", ⟨400, some "mapper_parsing_exception"⟩)], [], [],
      "index", ⟨400, some "mapper_parsing_exception"⟩, rfl, rfl, rfl, by simp⟩
  exact ⟨⟨List.cons_ne_nil _ _, rfl, hfirst,
      claim_c2.1 ⟨true, [[("index", ⟨400, some "mapper_parsing_exception"⟩)]]⟩
        ⟨[sampleEntry], []⟩ "mapper_parsing_exception"
        (List.cons_ne_nil _ _) rfl hfirst⟩,
    ⟨rfl, claim_c2.2 ⟨false, []⟩ ⟨[sampleEntry], []⟩ rfl⟩⟩

/-- C8: a response with the top-level `errors` flag set but no item
carrying a non-null error nevertheless lets the flush succeed: no error is
returned and the buffer is cleared, exactly as for `errors = false`. -/
theorem claim_c8 (items : List BulkItem) (st : BulkState)
    (hne : st.buf ≠ [])
    (hclean : ∀ it ∈ items, ∀ q ∈ it, (q : String × BulkAction).2.error = none) :
    flushBulkGo (constStore ⟨true, items⟩) st =
      (⟨[], st.flushes ++ [st.buf]⟩, none) ∧
    flushBulkGo (constStore ⟨false, items⟩) st =
      (⟨[], st.flushes ++ [st.buf]⟩, none) := by
  have hscan : scanItems items = none := scanItems_none hclean
  constructor <;>
  · unfold flushBulkGo constStore
    rw [if_neg (by simpa [List.isEmpty_iff] using hne)]
    simp [respFirstError, hscan]

theorem claim_c8_witness :
    (([sampleEntry] : List BulkEntry) ≠ [] ∧
     (∀ it ∈ [[(("index" : String), (⟨201, none⟩ : BulkAction))]], ∀ q ∈ it,
        (q : String × BulkAction).2.error = none)) ∧
    flushBulkGo (constStore ⟨true, [[("index", ⟨201, none⟩)]]⟩) ⟨[sampleEntry], []⟩ =
      (⟨[], [] ++ [[sampleEntry]]⟩, none) ∧
    flushBulkGo (constStore ⟨false, [[("index", ⟨201, none⟩)]]⟩) ⟨[sampleEntry], []⟩ =
      (⟨[], [] ++ [[sampleEntry]]⟩, none) :=
  ⟨⟨List.cons_ne_nil _ _, by decide⟩,
    claim_c8 [[("index", ⟨201, none⟩)]] ⟨[sampleEntry], []⟩
      (List.cons_ne_nil _ _) (by decide)⟩

/-- C3 counterexample: with batch size 2, when record 2 (1-indexed) fails
date normalization, the claim's ⌈(k−1)/B⌉ = ⌈1/2⌉ = 1 flush has *not* been
submitted — the pipeline fails having submitted zero flushes, record 1
still sitting in the buffer. -/
theorem claim_c3_counterexample :
    ceilDiv 1 2 = 1 ∧
    (bulkIndexGo 2 okStore [artOK "a", artBad]).2.isSome = true ∧
    (bulkIndexGo 2 okStore [artOK "a", artBad]).1.flushes.length = 0 := by
  refine ⟨by decide, by decide, by decide⟩

/-- C3 amended: if the records before the failing one all normalize and
all marshal (finite numeric fields) and the pipeline runs against an
accepting store with positive batch size B, then a date-normalization
failure at record k = (number of preceding records)+1 aborts the run with
the normalization error; exactly ⌊(k−1)/B⌋ flushes (the full batches among
records 1..k−1) have been submitted; the flushed records are exactly
records 1..B·⌊(k−1)/B⌋, so no flush contains record k or any later record;
the remaining earlier records sit unflushed in the buffer and record k is
never appended. -/
theorem claim_c3_amended (B : Nat) (store : StoreModel)
    (good : List Article) (bad : Article) (post : List Article) (e : String)
    (hB : 0 < B) (hstore : storeAccepts store)
    (hgood : ∀ a ∈ good, (NormalizeToESDate a.publicationDate).2 = none)
    (hgoodmar : ∀ a ∈ good, articleFloatsFinite a = true)
    (hbad : (NormalizeToESDate bad.publicationDate).2 = some e) :
    (bulkIndexGo B store (good ++ bad :: post)).2 = some (.dateParse e) ∧
    (bulkIndexGo B store (good ++ bad :: post)).1.flushes.length =
      good.length / B ∧
    (bulkIndexGo B store (good ++ bad :: post)).1.flushes.flatten =
      (good.map entryOf).take (B * (good.length / B)) ∧
    (bulkIndexGo B store (good ++ bad :: post)).1.buf =
      (good.map entryOf).drop (B * (good.length / B)) := by
  have hrun := bulkIndexLoop_fail hB hstore good bad post 0 ⟨[], []⟩ e hgood
    hgoodmar hbad (by simp)
  unfold bulkIndexGo
  rw [hrun]
  simp only [List.nil_append]
  have hlen : (good.map entryOf).length = good.length := List.length_map _ _
  refine ⟨by trivial, ?_, ?_, ?_⟩
  · rw [fullChunks_len B hB, hlen]
  · rw [fullChunks_join B hB, hlen]
  · rw [remChunk_eq B hB, hlen]

theorem claim_c3_amended_witness :
    0 < 2 ∧ storeAccepts okStore ∧
    (∀ a ∈ [artOK "a"], (NormalizeToESDate a.publicationDate).2 = none) ∧
    (∀ a ∈ [artOK "a"], articleFloatsFinite a = true) ∧
    (NormalizeToESDate artBad.publicationDate).2 = some "bad value for field" ∧
    ((bulkIndexGo 2 okStore ([artOK "a"] ++ artBad :: [])).2 =
       some (.dateParse "bad value for field") ∧
     (bulkIndexGo 2 okStore ([artOK "a"] ++ artBad :: [])).1.flushes.length =
       ([artOK "a"] : List Article).length / 2 ∧
     (bulkIndexGo 2 okStore ([artOK "a"] ++ artBad :: [])).1.flushes.flatten =
       (([artOK "a"] : List Article).map entryOf).take
         (2 * (([artOK "a"] : List Article).length / 2)) ∧
     (bulkIndexGo 2 okStore ([artOK "a"] ++ artBad :: [])).1.buf =
       (([artOK "a"] : List Article).map entryOf).drop
         (2 * (([artOK "a"] : List Article).length / 2))) :=
  ⟨by decide, okStore_accepts, by decide, by decide, by decide,
    claim_c3_amended 2 okStore [artOK "a"] artBad [] "bad value for field"
      (by decide) okStore_accepts (by decide) (by decide) (by decide)⟩

/-- C4: every input string matching the spec's pattern
`yyyy-MM-dd'T'HH:mm:ss` (a valid date-time at second precision, no zone)
normalizes successfully to the same instant in the output pattern
`yyyy-MM-dd'T'HH:mm:ss.SSS'Z'` — concretely, to the input with `.000Z`
appended; and `normalize "2024-01-15T10:30:00" = "2024-01-15T10:30:00.000Z"`. -/
theorem claim_c4 (s : String) (h : matchesInputPattern s = true) :
    NormalizeToESDate s = (s ++ ".000Z", none) ∧
    matchesOutputPattern (s ++ ".000Z") = true ∧
    NormalizeToESDate "2024-01-15T10:30:00" = ("2024-01-15T10:30:00.000Z", none) := by
  obtain ⟨h1, h2⟩ := normalize_strict_ok s h
  exact ⟨h1, h2, by decide⟩

theorem claim_c4_witness :
    matchesInputPattern "2024-06-30T23:59:07" = true ∧
    (NormalizeToESDate "2024-06-30T23:59:07" = ("2024-06-30T23:59:07.000Z", none) ∧
     matchesOutputPattern ("2024-06-30T23:59:07" ++ ".000Z") = true ∧
     NormalizeToESDate "2024-01-15T10:30:00" = ("2024-01-15T10:30:00.000Z", none)) := by
  refine ⟨by decide, ?_⟩
  have h := claim_c4 "2024-06-30T23:59:07" (by decide)
  exact ⟨h.1, h.2.1, h.2.2⟩

/-- C5 counterexample: "2024-01-15T9:30:00" does not match the spec's
input pattern (its hour has one digit), yet the normalizer succeeds on it
— Go's layout `15` also accepts a one-digit hour — so "every input not
matching the pattern fails" is false as stated. -/
theorem claim_c5_counterexample :
    matchesInputPattern "2024-01-15T9:30:00" = false ∧
    NormalizeToESDate "2024-01-15T9:30:00" = ("2024-01-15T09:30:00.000Z", none) :=
  ⟨by decide, by decide⟩

/-- C5 amended: every input outside the pattern *extended with Go's
one-digit-hour acceptance* (and with valid calendar components) fails with
an empty result and a non-nil error; in particular
`normalize "not-a-date"` fails. -/
theorem claim_c5_amended (s : String) (h : matchesFlexChars s.data = false) :
    (NormalizeToESDate s).1 = "" ∧ (NormalizeToESDate s).2.isSome = true ∧
    (NormalizeToESDate "not-a-date").1 = "" ∧
    (NormalizeToESDate "not-a-date").2.isSome = true := by
  have hno : ∀ dt, goTimeParseChars s.data ≠ .ok dt := by
    intro dt hok
    rw [goTimeParse_ok_flex hok] at h
    cases h
  cases hp : goTimeParseChars s.data with
  | error e =>
    refine ⟨?_, ?_, by decide, by decide⟩ <;> simp [NormalizeToESDate, hp]
  | ok dt => exact absurd hp (hno dt)

theorem claim_c5_amended_witness :
    matchesFlexChars ("99/99/9999").data = false ∧
    ((NormalizeToESDate "99/99/9999").1 = "" ∧
     (NormalizeToESDate "99/99/9999").2.isSome = true ∧
     (NormalizeToESDate "not-a-date").1 = "" ∧
     (NormalizeToESDate "not-a-date").2.isSome = true) :=
  ⟨by decide, claim_c5_amended "99/99/9999" (by decide)⟩

/-- C6: the schema-creation error is the sole recoverable kind — with it
alone present the run still completes (the error merely logged) — while
client-init, file-not-found, file-parse, date-parse, bulk-submit and
bulk-item errors each abort the run with a fatal exit of that kind. -/
theorem claim_c6 :
    (∀ (env : MainEnv) (articles : List Article), env.clientInitErr = none →
      env.loadResult = .ok articles →
      (bulkIndexGo bulkSize env.store articles).2 = none →
      mainGo env =
        .completed (createMappingsSettingsGo env.schema).2.isSome articles.length) ∧
    (∀ (env : MainEnv) (e : String), env.clientInitErr = some e →
      mainGo env = .fatalExit .clientInit) ∧
    (∀ (env : MainEnv) (e : String), env.clientInitErr = none →
      env.loadResult = .error (.notFound e) → mainGo env = .fatalExit .fileNotFound) ∧
    (∀ (env : MainEnv) (e : String), env.clientInitErr = none →
      env.loadResult = .error (.parseErr e) → mainGo env = .fatalExit .fileParse) ∧
    (∀ (env : MainEnv) (articles : List Article) (e : String),
      env.clientInitErr = none → env.loadResult = .ok articles →
      (bulkIndexGo bulkSize env.store articles).2 = some (.dateParse e) →
      mainGo env = .fatalExit .dateParse) ∧
    (∀ (env : MainEnv) (articles : List Article) (e : String),
      env.clientInitErr = none → env.loadResult = .ok articles →
      (bulkIndexGo bulkSize env.store articles).2 = some (.bulkSubmit e) →
      mainGo env = .fatalExit .bulkSubmit) ∧
    (∀ (env : MainEnv) (articles : List Article) (e : String),
      env.clientInitErr = none → env.loadResult = .ok articles →
      (bulkIndexGo bulkSize env.store articles).2 = some (.bulkItem e) →
      mainGo env = .fatalExit .bulkItem) := by
  refine ⟨?_, ?_, ?_, ?_, ?_, ?_, ?_⟩ <;>
    intro env
  · intro articles hc hl hb
    unfold mainGo
    rw [hc, hl]
    simp only [hb]
  · intro e hc
    unfold mainGo
    rw [hc]
  · intro e hc hl
    unfold mainGo
    rw [hc, hl]
  · intro e hc hl
    unfold mainGo
    rw [hc, hl]
  · intro articles e hc hl hb
    unfold mainGo
    rw [hc, hl]
    simp only [hb]
  · intro articles e hc hl hb
    unfold mainGo
    rw [hc, hl]
    simp only [hb]
  · intro articles e hc hl hb
    unfold mainGo
    rw [hc, hl]
    simp only [hb]

/-- Environments used to instantiate the driver claims. -/
def envSchemaErr : MainEnv := ⟨none, ⟨404, .error "create failed"⟩, .ok [], okStore⟩

def envClientErr : MainEnv := ⟨some "no client", ⟨200, .ok 200⟩, .ok [], okStore⟩

def envNotFound : MainEnv := ⟨none, ⟨200, .ok 200⟩, .error (.notFound "missing"), okStore⟩

def envParseErr : MainEnv := ⟨none, ⟨200, .ok 200⟩, .error (.parseErr "bad json"), okStore⟩

def envDateErr : MainEnv := ⟨none, ⟨200, .ok 200⟩, .ok [artBad], okStore⟩

/-- A store whose transport always fails. -/
def errStore : StoreModel := fun _ _ => .error "io error"

def envSubmitErr : MainEnv := ⟨none, ⟨200, .ok 200⟩, .ok [artOK "a"], errStore⟩

/-- A store that reports one failed item. -/
def itemErrStore : StoreModel := constStore ⟨true, [[("index", ⟨400, some "boom"⟩)]]⟩

def envItemErr : MainEnv := ⟨none, ⟨200, .ok 200⟩, .ok [artOK "a"], itemErrStore⟩

theorem claim_c6_witness :
    mainGo envSchemaErr = .completed true 0 ∧
    mainGo envClientErr = .fatalExit .clientInit ∧
    mainGo envNotFound = .fatalExit .fileNotFound ∧
    mainGo envParseErr = .fatalExit .fileParse ∧
    mainGo envDateErr = .fatalExit .dateParse ∧
    mainGo envSubmitErr = .fatalExit .bulkSubmit ∧
    mainGo envItemErr = .fatalExit .bulkItem :=
  ⟨by simpa using claim_c6.1 envSchemaErr [] rfl rfl (by decide),
   claim_c6.2.1 envClientErr "no client" rfl,
   claim_c6.2.2.1 envNotFound "missing" rfl rfl,
   claim_c6.2.2.2.1 envParseErr "bad json" rfl rfl,
   claim_c6.2.2.2.2.1 envDateErr [artBad] "bad value for field" rfl rfl (by decide),
   claim_c6.2.2.2.2.2.1 envSubmitErr [artOK "a"] "io error" rfl rfl (by decide),
   claim_c6.2.2.2.2.2.2 envItemErr [artOK "a"] "boom" rfl rfl (by decide)⟩

/-- C7: when the existence probe answers 200 the provisioner returns
success at once and issues no create request (idempotent, no side effect);
when the index is not reported present it does issue the create request. -/
theorem claim_c7 :
    (∀ env : ESEnv, env.existsStatus = 200 →
      createMappingsSettingsGo env = (false, none)) ∧
    (∀ env : ESEnv, env.existsStatus ≠ 200 →
      (createMappingsSettingsGo env).1 = true) := by
  constructor
  · intro env h
    unfold createMappingsSettingsGo
    rw [if_pos h]
  · intro env h
    unfold createMappingsSettingsGo
    rw [if_neg h]
    cases env.createResult <;> rfl

theorem claim_c7_witness :
    ((200 : Nat) = 200 ∧ createMappingsSettingsGo ⟨200, .ok 200⟩ = (false, none)) ∧
    ((404 : Nat) ≠ 200 ∧ (createMappingsSettingsGo ⟨404, .error "x"⟩).1 = true) :=
  ⟨⟨rfl, claim_c7.1 ⟨200, .ok 200⟩ rfl⟩,
   ⟨by decide, claim_c7.2 ⟨404, .error "x"⟩ (by decide)⟩⟩

/-- C9 counterexample: the identifier "a\tb" contains no double-quote,
backslash or newline — it satisfies the claim's precondition — and yet its
emitted metadata line is not a valid JSON object, because the raw TAB
control character may not appear unescaped in a JSON string. -/
theorem claim_c9_counterexample :
    (∀ c ∈ ("a\tb").data, noQuoteBackslashNewline c = true) ∧
    isJsonObjectString (metaLine "a\tb") = false :=
  ⟨by decide, by decide⟩

/-- C9 amended: the metadata line is built by plain interpolation with no
JSON escaping (it is the `mkMeta` string up to its terminating newline);
under the strengthened precondition that every identifier character is
JSON-safe — no double-quote, no backslash, and no control character (in
particular no newline) — the line is a well-formed JSON object and
contains no newline, keeping the one-object-per-line payload shape; and
for the identifier `a"b`, which violates the precondition, the emitted
line is not a valid JSON object. -/
theorem claim_c9_amended (id : String)
    (h : ∀ c ∈ id.data, jsonSafeChar c = true) :
    mkMeta indexName id = metaLine id ++ "\n" ∧
    isJsonObjectString (metaLine id) = true ∧
    '\n' ∉ (metaLine id).data ∧
    isJsonObjectString (metaLine "a\"b") = false :=
  ⟨mkMeta_metaLine id, metaLine_valid id h, metaLine_no_newline id h, by decide⟩

theorem claim_c9_amended_witness :
    (∀ c ∈ ("doc-42").data, jsonSafeChar c = true) ∧
    (mkMeta indexName "doc-42" = metaLine "doc-42" ++ "\n" ∧
     isJsonObjectString (metaLine "doc-42") = true ∧
     '\n' ∉ (metaLine "doc-42").data ∧
     isJsonObjectString (metaLine "a\"b") = false) :=
  ⟨by decide, claim_c9_amended "doc-42" (by decide)⟩
